import Mathlib

/-!
Verification of the FIFO lot-accounting engine of the bullion-ledger
application.  The definitions below are a shallow embedding of the
TypeScript source:

* `Invoice`, `InventoryBatch` mirror `src/types.ts` (numbers are modelled
  as exact rationals `ℚ`; ISO `YYYY-MM-DD` date strings are modelled as
  `Nat` day numbers, faithful because lexicographic order on zero-padded
  ISO strings coincides with chronological order, which is the only way
  the source ever uses dates: `<=` string comparison and
  `new Date(...).getTime()` comparison).
* `sortOn` models JavaScript `Array.prototype.sort` with a numeric key
  comparator.  ES2019 requires `sort` to be stable; a stable sort is
  uniquely determined as a function, and Mathlib's `List.insertionSort`
  with the reflexive comparison `key a ≤ key b` is stable, so the two
  agree on every input.
* `allocate` / `handleAddInvoice` mirror the FIFO allocator in
  `handleAddInvoice` (src/unnamed/part_000, lines 233-264).
* `consumeScratch`, `replayBatches`, `calculateInventoryValueOnDate`
  mirror `calculateInventoryValueOnDate` (src/utils.ts, lines 44-80).
* `calculateTurnoverStats` mirrors src/utils.ts lines 147-171.
* `calculateSupplierStats` mirrors src/utils.ts lines 115-145.
* `customerData` mirrors the customer-statistics memo in
  src/unnamed/part_000, lines 142-189.
-/

namespace Bullion

inductive TransactionType where
  | PURCHASE
  | SALE
deriving DecidableEq, Repr

/-- `Invoice` record from `src/types.ts`.  `cogs`/`profit` are the
optional sale-only fields. -/
structure Invoice where
  id : String
  date : Nat
  type : TransactionType
  partyName : String
  quantityGrams : ℚ
  ratePerGram : ℚ
  gstRate : ℚ
  gstAmount : ℚ
  taxableAmount : ℚ
  totalAmount : ℚ
  cogs : Option ℚ := none
  profit : Option ℚ := none
deriving DecidableEq, Repr

/-- `InventoryBatch` record from `src/types.ts`. -/
structure InventoryBatch where
  id : String
  date : Nat
  originalQuantity : ℚ
  remainingQuantity : ℚ
  costPerGram : ℚ
  closedDate : Option Nat := none
  totalRevenue : Option ℚ := none
deriving DecidableEq, Repr

/-- JavaScript stable `Array.prototype.sort` under a numeric-key
comparator `(a, b) => key(a) - key(b)`. -/
def sortOn {α κ : Type} [LinearOrder κ] (key : α → κ) (l : List α) : List α :=
  l.insertionSort (fun a b => key a ≤ key b)

/-- Scratch pair `{ quantity, cost }` used by the valuation replayer. -/
structure ScratchBatch where
  quantity : ℚ
  cost : ℚ
deriving DecidableEq, Repr

/-- The inner `while` loop of `calculateInventoryValueOnDate`
(src/utils.ts lines 60-75): `while (remainingToSell > 0.000001 &&
batches.length > 0)`, decrement the front batch in place or shift it. -/
def consumeScratch : ℚ → List ScratchBatch → List ScratchBatch
  | _, [] => []
  | remainingToSell, b :: rest =>
    if 0.000001 < remainingToSell then
      if remainingToSell < b.quantity then
        { b with quantity := b.quantity - remainingToSell } :: rest
      else
        consumeScratch (remainingToSell - b.quantity) rest
    else b :: rest

/-- One iteration of the replay loop: a purchase appends a fresh scratch
pair, a sale runs the FIFO consumption loop. -/
def replayStep (batches : List ScratchBatch) (inv : Invoice) : List ScratchBatch :=
  match inv.type with
  | TransactionType.PURCHASE => batches ++ [⟨inv.quantityGrams, inv.ratePerGram⟩]
  | TransactionType.SALE => consumeScratch inv.quantityGrams batches

/-- `invoices.filter(inv => inv.date <= targetDate).sort(by date)` from
`calculateInventoryValueOnDate`. -/
def relevantInvoices (invoices : List Invoice) (targetDate : Nat) : List Invoice :=
  sortOn (·.date) (invoices.filter (fun inv => decide (inv.date ≤ targetDate)))

/-- The scratch list left after replaying all relevant invoices. -/
def replayBatches (invoices : List Invoice) (targetDate : Nat) : List ScratchBatch :=
  (relevantInvoices invoices targetDate).foldl replayStep []

/-- `calculateInventoryValueOnDate` (src/utils.ts lines 44-80): value of
the remaining simulated batches. -/
def calculateInventoryValueOnDate (invoices : List Invoice) (targetDate : Nat) : ℚ :=
  (replayBatches invoices targetDate).foldl (fun sum b => sum + b.quantity * b.cost) 0

/-- The FIFO allocation loop of `handleAddInvoice`
(src/unnamed/part_000 lines 244-258).  Returns the updated lot list, the
accumulated `totalCOGS`, and the final `remainingToSell`. -/
def allocate (remainingToSell : ℚ) (lots : List InventoryBatch) (saleDate : Nat)
    (ratePerGram : ℚ) : List InventoryBatch × ℚ × ℚ :=
  match lots with
  | [] => ([], 0, remainingToSell)
  | batch :: rest =>
    if remainingToSell ≤ 0 then (batch :: rest, 0, remainingToSell)
    else if 0 < batch.remainingQuantity then
      let take := min batch.remainingQuantity remainingToSell
      let newRevenue := batch.totalRevenue.getD 0 + take * ratePerGram
      let newRemaining := batch.remainingQuantity - take
      let batch' :=
        if newRemaining < 0.0001 then
          { batch with remainingQuantity := 0, closedDate := some saleDate,
                       totalRevenue := some newRevenue }
        else
          { batch with remainingQuantity := newRemaining, totalRevenue := some newRevenue }
      let r := allocate (remainingToSell - take) rest saleDate ratePerGram
      (batch' :: r.1, take * batch.costPerGram + r.2.1, r.2.2)
    else
      let r := allocate remainingToSell rest saleDate ratePerGram
      (batch :: r.1, r.2.1, r.2.2)

/-- The application state owned by the controller: the invoice list
(newest first, prepend on insert) and the lot collection. -/
structure AppState where
  invoices : List Invoice
  inventory : List InventoryBatch
deriving DecidableEq, Repr

/-- The new `InventoryBatch` created by a purchase
(src/unnamed/part_000 line 236). -/
def mkBatch (invoice : Invoice) : InventoryBatch :=
  { id := invoice.id, date := invoice.date, originalQuantity := invoice.quantityGrams,
    remainingQuantity := invoice.quantityGrams, costPerGram := invoice.ratePerGram }

/-- `handleAddInvoice` (src/unnamed/part_000 lines 233-264).  Returns
the state after the operation together with the success flag: a sale
whose final `remainingToSell` exceeds `0.001` shows the "FIFO Mismatch"
error and leaves the live state untouched (the loop ran on a deep copy). -/
def handleAddInvoice (s : AppState) (invoice : Invoice) : AppState × Bool :=
  match invoice.type with
  | TransactionType.PURCHASE =>
    ({ invoices := invoice :: s.invoices,
       inventory := sortOn (·.date) (s.inventory ++ [mkBatch invoice]) }, true)
  | TransactionType.SALE =>
    let r := allocate invoice.quantityGrams s.inventory invoice.date invoice.ratePerGram
    if 0.001 < r.2.2 then (s, false)
    else
      let profit := invoice.quantityGrams * invoice.ratePerGram - r.2.1
      ({ invoices := { invoice with cogs := some r.2.1, profit := some profit } :: s.invoices,
         inventory := r.1 }, true)

/-- Apply a sequence of submitted invoices to the empty ledger,
keeping whatever state each operation leaves behind. -/
def applyOps (ops : List Invoice) : AppState :=
  ops.foldl (fun s op => (handleAddInvoice s op).1) ⟨[], []⟩

/-- `fifoValue` (src/unnamed/part_000 line 137): live inventory value. -/
def fifoValue (inventory : List InventoryBatch) : ℚ :=
  inventory.foldl (fun acc b => acc + b.remainingQuantity * b.costPerGram) 0

/-- `currentStock` (src/unnamed/part_000 line 136): total remaining grams. -/
def currentStock (inventory : List InventoryBatch) : ℚ :=
  inventory.foldl (fun acc b => acc + b.remainingQuantity) 0

/-- `TurnoverStats` record from `src/types.ts`. -/
structure TurnoverStats where
  turnoverRatio : ℚ
  avgDaysToSell : ℚ
  avgInventoryValue : ℚ
  totalCOGS : ℚ
deriving DecidableEq, Repr

/-- `Math.max(1, (end - start) / (1000*3600*24))` with day-number dates. -/
def daysInPeriod (startDate endDate : Nat) : ℚ :=
  max 1 ((endDate : ℚ) - (startDate : ℚ))

/-- `calculateTurnoverStats` (src/utils.ts lines 147-171). -/
def calculateTurnoverStats (invoices : List Invoice) (startDate endDate : Nat) :
    TurnoverStats :=
  let periodInvoices := invoices.filter
    (fun i => decide (startDate ≤ i.date) && decide (i.date ≤ endDate))
  let sales := periodInvoices.filter (fun i => decide (i.type = TransactionType.SALE))
  let totalCOGS := sales.foldl (fun acc s => acc + s.cogs.getD 0) 0
  let startInventoryVal := calculateInventoryValueOnDate invoices startDate
  let endInventoryVal := calculateInventoryValueOnDate invoices endDate
  let avgInventoryValue := (startInventoryVal + endInventoryVal) / 2
  let turnoverRatio := if 0 < avgInventoryValue then totalCOGS / avgInventoryValue else 0
  let avgDaysToSell :=
    if 0 < turnoverRatio then daysInPeriod startDate endDate / turnoverRatio else 0
  ⟨turnoverRatio, avgDaysToSell, avgInventoryValue, totalCOGS⟩

/-- `SupplierStat` record from `src/types.ts`. -/
structure SupplierStat where
  name : String
  totalGramsPurchased : ℚ
  avgRate : ℚ
  minRate : ℚ
  maxRate : ℚ
  volatility : ℚ
  txCount : Nat
deriving DecidableEq, Repr

/-- Per-supplier accumulator of `calculateSupplierStats`
(`{ totalGrams, totalCost, count, rates }`). -/
structure SupplierAcc where
  totalGrams : ℚ
  totalCost : ℚ
  count : Nat
  rates : List ℚ
deriving DecidableEq, Repr

/-- A JavaScript plain-object `Record<string, β>` used as an ordered map:
update the entry in place if the key exists, otherwise append it (string
keys enumerate in insertion order). -/
def updateAssoc {β : Type} (key : String) (f : β → β) (dflt : β) :
    List (String × β) → List (String × β)
  | [] => [(key, f dflt)]
  | (k, v) :: rest =>
    if k = key then (k, f v) :: rest else (k, v) :: updateAssoc key f dflt rest

/-- One purchase invoice folded into its supplier's accumulator
(src/utils.ts lines 122-125). -/
def suppBump (inv : Invoice) (a : SupplierAcc) : SupplierAcc :=
  { totalGrams := a.totalGrams + inv.quantityGrams,
    totalCost := a.totalCost + inv.quantityGrams * inv.ratePerGram,
    count := a.count + 1,
    rates := a.rates ++ [inv.ratePerGram] }

/-- The grouping loop of `calculateSupplierStats` (src/utils.ts
lines 118-126): fold the purchase invoices into the per-party record. -/
def supplierFold (invoices : List Invoice) : List (String × SupplierAcc) :=
  (invoices.filter (fun i => decide (i.type = TransactionType.PURCHASE))).foldl
    (fun acc inv => updateAssoc inv.partyName (suppBump inv) ⟨0, 0, 0, []⟩ acc)
    []

/-- `Math.min(...rates)`.  The empty case is unreachable in
`calculateSupplierStats` (every group holds at least one rate; JavaScript
would give `+Infinity` there, which has no rational counterpart). -/
def jsMinList : List ℚ → ℚ
  | [] => 0
  | x :: xs => xs.foldl min x

/-- `Math.max(...rates)`; empty case unreachable, as in `jsMinList`. -/
def jsMaxList : List ℚ → ℚ
  | [] => 0
  | x :: xs => xs.foldl max x

/-- `calculateSupplierStats` (src/utils.ts lines 115-145). -/
def calculateSupplierStats (invoices : List Invoice) : List SupplierStat :=
  sortOn (fun s => -s.totalGramsPurchased)
    ((supplierFold invoices).map (fun p =>
      let minRate := jsMinList p.2.rates
      let maxRate := jsMaxList p.2.rates
      let avgRate := if 0 < p.2.totalGrams then p.2.totalCost / p.2.totalGrams else 0
      { name := p.1, totalGramsPurchased := p.2.totalGrams, avgRate := avgRate,
        minRate := minRate, maxRate := maxRate, volatility := maxRate - minRate,
        txCount := p.2.count }))

/-- Per-customer accumulator of the customer-statistics memo
(src/unnamed/part_000 lines 146-160): `txCount` counts every invoice of
the party (purchases included); grams/spend/profit accumulate from sales
only. -/
structure CustomerAcc where
  name : String
  totalGrams : ℚ
  totalSpend : ℚ
  profitContribution : ℚ
  txCount : Nat
deriving DecidableEq, Repr

/-- One invoice folded into its party's accumulator
(src/unnamed/part_000 lines 147-160): the transaction count grows for
every invoice; grams, spend and profit only for sales. -/
def custBump (inv : Invoice) (a : CustomerAcc) : CustomerAcc :=
  let a1 : CustomerAcc := { a with txCount := a.txCount + 1 }
  match inv.type with
  | TransactionType.SALE =>
    { a1 with totalGrams := a1.totalGrams + inv.quantityGrams,
              totalSpend := a1.totalSpend + inv.totalAmount,
              profitContribution := a1.profitContribution + inv.profit.getD 0 }
  | TransactionType.PURCHASE => a1

/-- The grouping loop of the customer-statistics memo. -/
def customerFold (invoices : List Invoice) : List (String × CustomerAcc) :=
  invoices.foldl
    (fun acc inv =>
      updateAssoc inv.partyName (custBump inv) ⟨inv.partyName, 0, 0, 0, 0⟩ acc)
    []

/-- One row of the customer table (`CustomerStat` plus the derived
fields added by the memo). -/
structure CustomerRow where
  name : String
  totalGrams : ℚ
  totalSpend : ℚ
  profitContribution : ℚ
  txCount : Nat
  margin : ℚ
  avgProfitPerGram : ℚ
  avgQtyPerTx : ℚ
  avgSellingPrice : ℚ
  behaviorPattern : String
deriving DecidableEq, Repr

/-- The row construction of the customer-statistics memo
(src/unnamed/part_000 lines 162-187). -/
def mkCustomerRow (stat : CustomerAcc) : CustomerRow :=
  let margin := if 0 < stat.totalSpend then stat.profitContribution / stat.totalSpend * 100 else 0
  let avgQty := stat.totalGrams / (stat.txCount : ℚ)
  let avgSell := if 0 < stat.totalGrams then stat.totalSpend / stat.totalGrams else 0
  let avgProfit := if 0 < stat.totalGrams then stat.profitContribution / stat.totalGrams else 0
  let base :=
    if 100 < avgQty then "Bulk Buyer"
    else if 5 < stat.txCount then "Frequent"
    else "Regular"
  let pattern :=
    if margin < 0.5 then base ++ " (Price Sensitive)"
    else if 2.0 < margin then base ++ " (High Margin)"
    else base
  { name := stat.name, totalGrams := stat.totalGrams, totalSpend := stat.totalSpend,
    profitContribution := stat.profitContribution, txCount := stat.txCount,
    margin := margin, avgProfitPerGram := avgProfit, avgQtyPerTx := avgQty,
    avgSellingPrice := avgSell, behaviorPattern := pattern }

/-- `customerData` (src/unnamed/part_000 lines 142-189): group, keep the
parties with positive spend, derive the row fields, sort descending by
profit contribution. -/
def customerData (invoices : List Invoice) : List CustomerRow :=
  sortOn (fun r => -r.profitContribution)
    ((((customerFold invoices).map Prod.snd).filter
        (fun s => decide (0 < s.totalSpend))).map mkCustomerRow)

/-! ### Generic list lemmas -/

lemma foldl_add_map {α : Type} (f : α → ℚ) :
    ∀ (l : List α) (init : ℚ), l.foldl (fun acc x => acc + f x) init = init + (l.map f).sum
  | [], init => by simp
  | a :: t, init => by
    rw [List.foldl_cons, foldl_add_map f t (init + f a)]
    simp [add_assoc]

lemma sortOn_perm {α κ : Type} [LinearOrder κ] (key : α → κ) (l : List α) :
    List.Perm (sortOn key l) l :=
  List.perm_insertionSort _ l

lemma mem_sortOn {α κ : Type} [LinearOrder κ] (key : α → κ) {l : List α} {x : α} :
    x ∈ sortOn key l ↔ x ∈ l :=
  List.mem_insertionSort _

lemma sortOn_pairwise {α κ : Type} [LinearOrder κ] (key : α → κ) (l : List α) :
    List.Pairwise (fun a b => key a ≤ key b) (sortOn key l) := by
  haveI : IsTotal α (fun a b => key a ≤ key b) := ⟨fun a b => le_total (key a) (key b)⟩
  haveI : IsTrans α (fun a b => key a ≤ key b) := ⟨fun _ _ _ hab hbc => le_trans hab hbc⟩
  exact List.sorted_insertionSort _ l

lemma sortOn_eq_self {α κ : Type} [LinearOrder κ] (key : α → κ) {l : List α}
    (h : List.Pairwise (fun a b => key a < key b) l) : sortOn key l = l :=
  List.Sorted.insertionSort_eq (h.imp fun hab => le_of_lt hab)

lemma orderedInsert_of_all_lt {α κ : Type} [LinearOrder κ] (key : α → κ) {a : α} :
    ∀ (m : List α), (∀ b ∈ m, key b < key a) →
      m.orderedInsert (fun x y => key x ≤ key y) a = m ++ [a]
  | [], _ => rfl
  | b :: m', h => by
    have hb : key b < key a := h b (by simp)
    simp only [List.orderedInsert, if_neg (not_le_of_lt hb)]
    rw [orderedInsert_of_all_lt key m' (fun c hc => h c (by simp [hc]))]
    simp

lemma sortOn_eq_reverse {α κ : Type} [LinearOrder κ] (key : α → κ) :
    ∀ (l : List α), List.Pairwise (fun a b => key b < key a) l →
      sortOn key l = l.reverse
  | [], _ => rfl
  | a :: t, h => by
    have ht := List.Pairwise.of_cons h
    have ha : ∀ b ∈ t, key b < key a := fun b hb => List.rel_of_pairwise_cons h hb
    show (a :: t).insertionSort (fun x y => key x ≤ key y) = (a :: t).reverse
    rw [List.insertionSort]
    rw [show t.insertionSort (fun x y => key x ≤ key y) = sortOn key t from rfl]
    rw [sortOn_eq_reverse key t ht]
    rw [orderedInsert_of_all_lt key t.reverse (fun b hb => ha b (List.mem_reverse.mp hb))]
    simp

/-! ### C1: the concrete two-purchase / one-sale FIFO scenario -/

/-- The three submitted invoices of concrete scenario 2. -/
def c1Purchase1 : Invoice :=
  { id := "p1", date := 1, type := TransactionType.PURCHASE, partyName := "SupplierA",
    quantityGrams := 50, ratePerGram := 6000, gstRate := 3, gstAmount := 9000,
    taxableAmount := 300000, totalAmount := 309000 }

def c1Purchase2 : Invoice :=
  { id := "p2", date := 3, type := TransactionType.PURCHASE, partyName := "SupplierA",
    quantityGrams := 50, ratePerGram := 6200, gstRate := 3, gstAmount := 9300,
    taxableAmount := 310000, totalAmount := 319300 }

def c1Sale : Invoice :=
  { id := "s1", date := 5, type := TransactionType.SALE, partyName := "CustomerB",
    quantityGrams := 60, ratePerGram := 6500, gstRate := 3, gstAmount := 11700,
    taxableAmount := 390000, totalAmount := 401700 }

/-- **C1.** Purchase 50g @6000 (day 1), purchase 50g @6200 (day 3), sell
60g @6500 (day 5): the allocator drains the first lot completely (50g,
cost 300000, `remainingQuantity` 0, `closedDate` = day 5) and takes 10g
from the second lot (cost 62000, 40g left); the sale is stamped with
`cogs = 362000` and `profit = 390000 − 362000 = 28000`.  The two per-lot
cost contributions are visible in the stamped `cogs` together with the
lots' revenue fields (50g·6500 = 325000 and 10g·6500 = 65000). -/
theorem claim_c1 :
    applyOps [c1Purchase1, c1Purchase2, c1Sale] =
      { invoices := [{ c1Sale with cogs := some 362000, profit := some 28000 },
                     c1Purchase2, c1Purchase1],
        inventory := [{ id := "p1", date := 1, originalQuantity := 50,
                        remainingQuantity := 0, costPerGram := 6000,
                        closedDate := some 5, totalRevenue := some 325000 },
                      { id := "p2", date := 3, originalQuantity := 50,
                        remainingQuantity := 40, costPerGram := 6200,
                        closedDate := none, totalRevenue := some 65000 }] } ∧
    (362000 : ℚ) = 50 * 6000 + 10 * 6200 ∧ (28000 : ℚ) = 390000 - 362000 := by
  refine ⟨?_, by norm_num, by norm_num⟩
  norm_num [applyOps, handleAddInvoice, allocate, mkBatch, sortOn, List.insertionSort,
    List.orderedInsert, min_def, c1Purchase1, c1Purchase2, c1Sale, AppState.mk.injEq,
    Invoice.mk.injEq, InventoryBatch.mk.injEq]

/-! ### Allocator lemmas -/

lemma currentStock_eq (l : List InventoryBatch) :
    currentStock l = (l.map (·.remainingQuantity)).sum := by
  unfold currentStock
  rw [foldl_add_map]
  simp

lemma fifoValue_eq (l : List InventoryBatch) :
    fifoValue l = (l.map (fun b => b.remainingQuantity * b.costPerGram)).sum := by
  unfold fifoValue
  rw [foldl_add_map]
  simp

lemma allocate_nil (t : ℚ) (d : Nat) (r : ℚ) : allocate t [] d r = ([], 0, t) := rfl

lemma allocate_cons_stop {t : ℚ} (h : t ≤ 0) (b : InventoryBatch)
    (rest : List InventoryBatch) (d : Nat) (r : ℚ) :
    allocate t (b :: rest) d r = (b :: rest, 0, t) := by
  simp [allocate, h]

lemma allocate_cons_skip {t : ℚ} {b : InventoryBatch} (h1 : ¬ t ≤ 0)
    (h2 : ¬ 0 < b.remainingQuantity) (rest : List InventoryBatch) (d : Nat) (r : ℚ) :
    allocate t (b :: rest) d r =
      (b :: (allocate t rest d r).1, (allocate t rest d r).2.1, (allocate t rest d r).2.2) := by
  simp [allocate, h1, h2]

/-- The updated front batch in the consuming branch of the allocator. -/
def allocUpdate (b : InventoryBatch) (t : ℚ) (d : Nat) (r : ℚ) : InventoryBatch :=
  let take := min b.remainingQuantity t
  let newRevenue := b.totalRevenue.getD 0 + take * r
  let newRemaining := b.remainingQuantity - take
  if newRemaining < 0.0001 then
    { b with remainingQuantity := 0, closedDate := some d, totalRevenue := some newRevenue }
  else
    { b with remainingQuantity := newRemaining, totalRevenue := some newRevenue }

lemma allocate_cons_take {t : ℚ} {b : InventoryBatch} (h1 : ¬ t ≤ 0)
    (h2 : 0 < b.remainingQuantity) (rest : List InventoryBatch) (d : Nat) (r : ℚ) :
    allocate t (b :: rest) d r =
      (allocUpdate b t d r :: (allocate (t - min b.remainingQuantity t) rest d r).1,
       min b.remainingQuantity t * b.costPerGram
         + (allocate (t - min b.remainingQuantity t) rest d r).2.1,
       (allocate (t - min b.remainingQuantity t) rest d r).2.2) := by
  simp only [allocate, if_neg h1, if_pos h2, allocUpdate]

lemma allocate_nonpos {t : ℚ} (h : t ≤ 0) :
    ∀ (lots : List InventoryBatch) (d : Nat) (r : ℚ), allocate t lots d r = (lots, 0, t)
  | [], _, _ => rfl
  | _ :: _, d, r => allocate_cons_stop h _ _ d r

lemma allocate_leftover_ge :
    ∀ (lots : List InventoryBatch), (∀ b ∈ lots, 0 ≤ b.remainingQuantity) →
      ∀ (t : ℚ) (d : Nat) (r : ℚ),
        t - (lots.map (·.remainingQuantity)).sum ≤ (allocate t lots d r).2.2
  | [], _, t, d, r => by simp [allocate_nil]
  | b :: rest, hnn, t, d, r => by
    have hb : 0 ≤ b.remainingQuantity := hnn b (by simp)
    have hrest : ∀ x ∈ rest, 0 ≤ x.remainingQuantity := fun x hx => hnn x (by simp [hx])
    have hsum : 0 ≤ (rest.map (·.remainingQuantity)).sum :=
      List.sum_nonneg (by
        intro q hq
        obtain ⟨x, hx, rfl⟩ := List.mem_map.mp hq
        exact hrest x hx)
    by_cases h1 : t ≤ 0
    · rw [allocate_cons_stop h1]
      simp only [List.map_cons, List.sum_cons]
      linarith
    · by_cases h2 : 0 < b.remainingQuantity
      · rw [allocate_cons_take h1 h2]
        have ih := allocate_leftover_ge rest hrest (t - min b.remainingQuantity t) d r
        have hmin : min b.remainingQuantity t ≤ b.remainingQuantity := min_le_left _ _
        simp only [List.map_cons, List.sum_cons]
        linarith
      · rw [allocate_cons_skip h1 h2]
        have ih := allocate_leftover_ge rest hrest t d r
        simp only [List.map_cons, List.sum_cons]
        linarith

lemma allocate_leftover_bounds :
    ∀ (lots : List InventoryBatch) {t : ℚ}, 0 ≤ t → ∀ (d : Nat) (r : ℚ),
      0 ≤ (allocate t lots d r).2.2 ∧ (allocate t lots d r).2.2 ≤ t
  | [], t, ht, d, r => by simp [allocate_nil, ht]
  | b :: rest, t, ht, d, r => by
    by_cases h1 : t ≤ 0
    · rw [allocate_cons_stop h1]
      exact ⟨ht, le_refl t⟩
    · by_cases h2 : 0 < b.remainingQuantity
      · rw [allocate_cons_take h1 h2]
        have htake : min b.remainingQuantity t ≤ t := min_le_right _ _
        have ih := allocate_leftover_bounds rest
          (t := t - min b.remainingQuantity t) (by linarith) d r
        have hmin0 : 0 ≤ min b.remainingQuantity t :=
          le_min (le_of_lt h2) (by linarith)
        exact ⟨ih.1, by linarith [ih.2]⟩
      · rw [allocate_cons_skip h1 h2]
        exact allocate_leftover_bounds rest ht d r

/-! ### C2: an insufficient sale is rejected and leaves the state untouched -/

/-- **C2.** For every ledger state whose lots all carry non-negative
remaining quantity and every attempted sale whose quantity exceeds the
total remaining stock by more than the tolerance `0.001`, the handler
reports failure (the "FIFO Mismatch" insufficient-stock toast) and
returns the state unchanged: every lot's `remainingQuantity`,
`closedDate` and `totalRevenue`, and the whole transaction list, are
exactly as before — the allocation loop only ran on a scratch copy. -/
theorem claim_c2 (s : AppState) (inv : Invoice)
    (hnn : ∀ b ∈ s.inventory, 0 ≤ b.remainingQuantity)
    (ht : inv.type = TransactionType.SALE)
    (hq : currentStock s.inventory + 0.001 < inv.quantityGrams) :
    handleAddInvoice s inv = (s, false) := by
  have hge := allocate_leftover_ge s.inventory hnn inv.quantityGrams inv.date inv.ratePerGram
  rw [currentStock_eq] at hq
  have hgt : 0.001 <
      (allocate inv.quantityGrams s.inventory inv.date inv.ratePerGram).2.2 := by
    linarith
  simp [handleAddInvoice, ht, hgt]

/-- Witness for C2: a single open 1g lot, a 1.5g sale attempt. -/
theorem claim_c2_witness :
    handleAddInvoice
      { invoices := [],
        inventory := [{ id := "a", date := 1, originalQuantity := 1,
                        remainingQuantity := 1, costPerGram := 6000 }] }
      { id := "s", date := 2, type := TransactionType.SALE, partyName := "C",
        quantityGrams := 3/2, ratePerGram := 6500, gstRate := 3, gstAmount := 0,
        taxableAmount := 9750, totalAmount := 9750 } =
    ({ invoices := [],
       inventory := [{ id := "a", date := 1, originalQuantity := 1,
                       remainingQuantity := 1, costPerGram := 6000 }] }, false) :=
  claim_c2 _ _
    (by
      intro b hb
      simp only [List.mem_singleton] at hb
      subst hb
      norm_num)
    rfl
    (by norm_num [currentStock])

/-! ### C8: a sale inside the tolerance window drains the whole book -/

/-- What the allocation loop does to one lot when the requested quantity
exceeds the whole remaining stock: a lot with positive stock is drained
to zero, closed at the sale date and credited with its full revenue; an
already-empty lot is untouched. -/
def drainLot (d : Nat) (r : ℚ) (b : InventoryBatch) : InventoryBatch :=
  if 0 < b.remainingQuantity then
    { b with remainingQuantity := 0, closedDate := some d,
             totalRevenue := some (b.totalRevenue.getD 0 + b.remainingQuantity * r) }
  else b

lemma allocate_overdrain :
    ∀ (lots : List InventoryBatch), (∀ b ∈ lots, 0 ≤ b.remainingQuantity) →
      ∀ {t : ℚ}, (lots.map (·.remainingQuantity)).sum < t → ∀ (d : Nat) (r : ℚ),
        allocate t lots d r =
          (lots.map (drainLot d r),
           (lots.map (fun b => b.remainingQuantity * b.costPerGram)).sum,
           t - (lots.map (·.remainingQuantity)).sum)
  | [], _, t, hex, d, r => by simp [allocate_nil]
  | b :: rest, hnn, t, hex, d, r => by
    have hb : 0 ≤ b.remainingQuantity := hnn b (by simp)
    have hrest : ∀ x ∈ rest, 0 ≤ x.remainingQuantity := fun x hx => hnn x (by simp [hx])
    have hsum : 0 ≤ (rest.map (·.remainingQuantity)).sum :=
      List.sum_nonneg (by
        intro q hq
        obtain ⟨x, hx, rfl⟩ := List.mem_map.mp hq
        exact hrest x hx)
    simp only [List.map_cons, List.sum_cons] at hex
    have h1 : ¬ t ≤ 0 := by linarith
    by_cases h2 : 0 < b.remainingQuantity
    · have hmin : min b.remainingQuantity t = b.remainingQuantity :=
        min_eq_left (by linarith)
      have hexr : (rest.map (·.remainingQuantity)).sum < t - b.remainingQuantity := by
        linarith
      rw [allocate_cons_take h1 h2, hmin,
          allocate_overdrain rest hrest hexr d r]
      have hupd : allocUpdate b t d r = drainLot d r b := by
        simp [allocUpdate, hmin, drainLot, h2]
        norm_num
      rw [hupd]
      simp only [List.map_cons, List.sum_cons, Prod.mk.injEq]
      exact ⟨trivial, by ring, by ring⟩
    · have hb0 : b.remainingQuantity = 0 := le_antisymm (not_lt.mp h2) hb
      have hexr : (rest.map (·.remainingQuantity)).sum < t := by linarith
      rw [allocate_cons_skip h1 h2, allocate_overdrain rest hrest hexr d r]
      have hdb : drainLot d r b = b := by simp [drainLot, h2]
      simp only [List.map_cons, List.sum_cons, hdb, hb0, Prod.mk.injEq]
      exact ⟨trivial, by ring, by ring⟩

/-- **C8.** For every ledger whose lots have non-negative remaining
quantity and every sale whose quantity exceeds the total remaining stock
by a positive amount of at most `0.001` g, the sale is committed (success
flag `true`): every lot ends with `remainingQuantity = 0`, every lot that
had positive stock gets `closedDate` = the sale date, and the stamped
`cogs` equals `fifoValue` of the pre-sale inventory — the cost of the
stock that actually existed, not of the requested quantity. -/
theorem claim_c8 (s : AppState) (inv : Invoice)
    (hnn : ∀ b ∈ s.inventory, 0 ≤ b.remainingQuantity)
    (ht : inv.type = TransactionType.SALE)
    (hlo : currentStock s.inventory < inv.quantityGrams)
    (hhi : inv.quantityGrams ≤ currentStock s.inventory + 0.001) :
    handleAddInvoice s inv =
      ({ invoices :=
           { inv with
               cogs := some (fifoValue s.inventory),
               profit := some (inv.quantityGrams * inv.ratePerGram
                                - fifoValue s.inventory) } :: s.invoices,
         inventory := s.inventory.map (drainLot inv.date inv.ratePerGram) }, true) ∧
    (∀ b ∈ s.inventory.map (drainLot inv.date inv.ratePerGram),
      b.remainingQuantity = 0) ∧
    (∀ b ∈ s.inventory, 0 < b.remainingQuantity →
      (drainLot inv.date inv.ratePerGram b).closedDate = some inv.date) := by
  rw [currentStock_eq] at hlo hhi
  have halloc := allocate_overdrain s.inventory hnn hlo inv.date inv.ratePerGram
  refine ⟨?_, ?_, ?_⟩
  · have hle : ¬ (0.001 : ℚ) <
        (allocate inv.quantityGrams s.inventory inv.date inv.ratePerGram).2.2 := by
      rw [halloc]
      simp only [not_lt]
      linarith
    simp [handleAddInvoice, ht, hle, halloc, fifoValue_eq]
    linarith
  · intro b hb
    obtain ⟨x, hx, rfl⟩ := List.mem_map.mp hb
    have hx0 : 0 ≤ x.remainingQuantity := hnn x hx
    by_cases hpos : 0 < x.remainingQuantity
    · simp [drainLot, hpos]
    · simp [drainLot, hpos]
      linarith
  · intro b _ hpos
    simp [drainLot, hpos]

/-- Witness for C8: two lots (one already closed), sale of
`2.001` g against `2` g of stock commits and drains the book. -/
theorem claim_c8_witness :
    handleAddInvoice
      { invoices := [],
        inventory := [{ id := "a", date := 1, originalQuantity := 2,
                        remainingQuantity := 2, costPerGram := 6000 },
                      { id := "b", date := 2, originalQuantity := 3,
                        remainingQuantity := 0, costPerGram := 6100,
                        closedDate := some 3 }] }
      { id := "s", date := 9, type := TransactionType.SALE, partyName := "C",
        quantityGrams := 2001/1000, ratePerGram := 7000, gstRate := 3, gstAmount := 0,
        taxableAmount := 14007, totalAmount := 14007 } =
      ({ invoices := [{ id := "s", date := 9, type := TransactionType.SALE,
                        partyName := "C", quantityGrams := 2001/1000,
                        ratePerGram := 7000, gstRate := 3, gstAmount := 0,
                        taxableAmount := 14007, totalAmount := 14007,
                        cogs := some 12000, profit := some 2007 }],
         inventory := [{ id := "a", date := 1, originalQuantity := 2,
                         remainingQuantity := 0, costPerGram := 6000,
                         closedDate := some 9, totalRevenue := some 14000 },
                       { id := "b", date := 2, originalQuantity := 3,
                         remainingQuantity := 0, costPerGram := 6100,
                         closedDate := some 3 }] }, true) := by
  have h := (claim_c8
    { invoices := [],
      inventory := [{ id := "a", date := 1, originalQuantity := 2,
                      remainingQuantity := 2, costPerGram := 6000 },
                    { id := "b", date := 2, originalQuantity := 3,
                      remainingQuantity := 0, costPerGram := 6100,
                      closedDate := some 3 }] }
    { id := "s", date := 9, type := TransactionType.SALE, partyName := "C",
      quantityGrams := 2001/1000, ratePerGram := 7000, gstRate := 3, gstAmount := 0,
      taxableAmount := 14007, totalAmount := 14007 }
    (by
      intro b hb
      simp only [List.mem_cons, List.mem_singleton, List.not_mem_nil, or_false] at hb
      rcases hb with rfl | rfl
      · norm_num
      · norm_num)
    rfl
    (by norm_num [currentStock])
    (by norm_num [currentStock])).1
  rw [h]
  norm_num [fifoValue, drainLot]

/-! ### Valuation-replayer safety lemmas -/

lemma consumeScratch_pres :
    ∀ (l : List ScratchBatch), (∀ b ∈ l, 0 ≤ b.quantity ∧ 0 ≤ b.cost) →
      ∀ (t : ℚ), ∀ b ∈ consumeScratch t l, 0 ≤ b.quantity ∧ 0 ≤ b.cost
  | [], _, t, b, hb => by simp [consumeScratch] at hb
  | x :: rest, h, t, b, hb => by
    have hx := h x (by simp)
    have hrest : ∀ y ∈ rest, 0 ≤ y.quantity ∧ 0 ≤ y.cost := fun y hy => h y (by simp [hy])
    by_cases hg : (0.000001 : ℚ) < t
    · by_cases hlt : t < x.quantity
      · rw [consumeScratch, if_pos hg, if_pos hlt] at hb
        rcases List.mem_cons.mp hb with rfl | hmem
        · exact ⟨by simpa using le_of_lt (sub_pos.mpr hlt), by simpa using hx.2⟩
        · exact hrest b hmem
      · rw [consumeScratch, if_pos hg, if_neg hlt] at hb
        exact consumeScratch_pres rest hrest (t - x.quantity) b hb
    · rw [consumeScratch, if_neg hg] at hb
      rcases List.mem_cons.mp hb with rfl | hmem
      · exact hx
      · exact hrest b hmem

lemma replayStep_pres {batches : List ScratchBatch} {inv : Invoice}
    (h : ∀ b ∈ batches, 0 ≤ b.quantity ∧ 0 ≤ b.cost)
    (hq : 0 ≤ inv.quantityGrams) (hr : 0 ≤ inv.ratePerGram) :
    ∀ b ∈ replayStep batches inv, 0 ≤ b.quantity ∧ 0 ≤ b.cost := by
  intro b hb
  unfold replayStep at hb
  cases htype : inv.type with
  | PURCHASE =>
    rw [htype] at hb
    rcases List.mem_append.mp hb with hmem | hmem
    · exact h b hmem
    · simp only [List.mem_singleton] at hmem
      subst hmem
      exact ⟨hq, hr⟩
  | SALE =>
    rw [htype] at hb
    exact consumeScratch_pres batches h inv.quantityGrams b hb

lemma foldl_replayStep_pres :
    ∀ (l : List Invoice) (init : List ScratchBatch),
      (∀ i ∈ l, 0 ≤ i.quantityGrams ∧ 0 ≤ i.ratePerGram) →
      (∀ b ∈ init, 0 ≤ b.quantity ∧ 0 ≤ b.cost) →
      ∀ b ∈ l.foldl replayStep init, 0 ≤ b.quantity ∧ 0 ≤ b.cost
  | [], init, _, hinit, b, hb => hinit b hb
  | i :: rest, init, hl, hinit, b, hb => by
    have hi := hl i (by simp)
    exact foldl_replayStep_pres rest (replayStep init i)
      (fun j hj => hl j (by simp [hj]))
      (replayStep_pres hinit hi.1 hi.2) b hb

lemma mem_relevantInvoices {invs : List Invoice} {t : Nat} {i : Invoice}
    (hi : i ∈ relevantInvoices invs t) : i ∈ invs := by
  unfold relevantInvoices at hi
  exact List.mem_of_mem_filter ((mem_sortOn _).mp hi)

lemma replayBatches_pres {invs : List Invoice} {t : Nat}
    (h : ∀ i ∈ invs, 0 ≤ i.quantityGrams ∧ 0 ≤ i.ratePerGram) :
    ∀ b ∈ replayBatches invs t, 0 ≤ b.quantity ∧ 0 ≤ b.cost :=
  foldl_replayStep_pres _ [] (fun i hi => h i (mem_relevantInvoices hi)) (by simp)

lemma calculateInventoryValueOnDate_nonneg {invs : List Invoice} {t : Nat}
    (h : ∀ i ∈ invs, 0 ≤ i.quantityGrams ∧ 0 ≤ i.ratePerGram) :
    0 ≤ calculateInventoryValueOnDate invs t := by
  unfold calculateInventoryValueOnDate
  rw [foldl_add_map]
  rw [zero_add]
  refine List.sum_nonneg ?_
  intro q hq
  obtain ⟨b, hb, rfl⟩ := List.mem_map.mp hq
  have := replayBatches_pres h b hb
  exact mul_nonneg this.1 this.2

lemma consumeScratch_drain :
    ∀ (l : List ScratchBatch), (∀ b ∈ l, 0 ≤ b.quantity) →
      ∀ {t : ℚ}, (l.map (·.quantity)).sum + 0.000001 < t → consumeScratch t l = []
  | [], _, t, _ => rfl
  | x :: rest, h, t, hex => by
    have hx : 0 ≤ x.quantity := h x (by simp)
    have hrest : ∀ y ∈ rest, 0 ≤ y.quantity := fun y hy => h y (by simp [hy])
    have hsum : 0 ≤ (rest.map (·.quantity)).sum :=
      List.sum_nonneg (by
        intro q hq
        obtain ⟨y, hy, rfl⟩ := List.mem_map.mp hq
        exact hrest y hy)
    simp only [List.map_cons, List.sum_cons] at hex
    have hg : (0.000001 : ℚ) < t := by linarith
    have hnlt : ¬ t < x.quantity := by
      simp only [not_lt]
      linarith
    rw [consumeScratch, if_pos hg, if_neg hnlt]
    exact consumeScratch_drain rest hrest (by linarith)

/-! ### C9: replayer totality and non-negativity -/

/-- The two invoices of the C9 counterexample: a microscopic purchase of
`5·10⁻⁷` g followed by a sale of `10⁻⁶` g, which exceeds the replayed
stock but does not clear the loop guard `remainingToSell > 0.000001`. -/
def c9Purchase : Invoice :=
  { id := "p", date := 1, type := TransactionType.PURCHASE, partyName := "S",
    quantityGrams := 1/2000000, ratePerGram := 1, gstRate := 3, gstAmount := 0,
    taxableAmount := 1/2000000, totalAmount := 1/2000000 }

def c9Sale : Invoice :=
  { id := "s", date := 2, type := TransactionType.SALE, partyName := "C",
    quantityGrams := 1/1000000, ratePerGram := 1, gstRate := 3, gstAmount := 0,
    taxableAmount := 1/1000000, totalAmount := 1/1000000 }

/-- **C9, counterexample.**  The claim states that a sale exceeding the
replayed stock empties the scratch list.  Here the sale quantity
(`10⁻⁶` g) strictly exceeds the total stock (`5·10⁻⁷` g), yet the scratch
list afterwards still contains the original batch untouched, because the
while-loop guard `remainingToSell > 0.000001` already fails on entry. -/
theorem claim_c9_counterexample :
    c9Purchase.quantityGrams < c9Sale.quantityGrams ∧
    replayBatches [c9Purchase, c9Sale] 2 = [⟨1/2000000, 1⟩] ∧
    replayBatches [c9Purchase, c9Sale] 2 ≠ [] := by
  refine ⟨by norm_num [c9Purchase, c9Sale], ?_, ?_⟩ <;>
    norm_num [replayBatches, relevantInvoices, sortOn, List.insertionSort,
      List.orderedInsert, replayStep, consumeScratch, c9Purchase, c9Sale]

/-- **C9, amended.**  For every invoice list with non-negative quantities
and rates and every target date: the replayer is total (a Lean function);
the empty list yields value `0`; the result is non-negative; after every
number of replay steps every scratch quantity is non-negative; and a sale
exceeding the replayed stock *by more than the loop guard `0.000001`*
empties the scratch list without faulting. -/
theorem claim_c9_amended (invs : List Invoice) (t : Nat)
    (h : ∀ i ∈ invs, 0 ≤ i.quantityGrams ∧ 0 ≤ i.ratePerGram) :
    calculateInventoryValueOnDate [] t = 0 ∧
    0 ≤ calculateInventoryValueOnDate invs t ∧
    (∀ n, ∀ b ∈ ((relevantInvoices invs t).take n).foldl replayStep [],
      0 ≤ b.quantity) ∧
    (∀ q : ℚ, ((replayBatches invs t).map (·.quantity)).sum + 0.000001 < q →
      consumeScratch q (replayBatches invs t) = []) := by
  refine ⟨rfl, calculateInventoryValueOnDate_nonneg h, ?_, ?_⟩
  · intro n b hb
    exact (foldl_replayStep_pres _ []
      (fun i hi => h i (mem_relevantInvoices (List.take_subset n _ hi)))
      (by simp) b hb).1
  · intro q hq
    exact consumeScratch_drain _
      (fun b hb => (replayBatches_pres h b hb).1) hq

/-- Witness for C9 (amended): a concrete ledger where the replayer both
returns a non-negative value and drains on a large-enough over-sale. -/
theorem claim_c9_witness :
    0 ≤ calculateInventoryValueOnDate [c9Purchase, c9Sale] 3 ∧
    consumeScratch 1 (replayBatches [c9Purchase, c9Sale] 3) = [] := by
  have h := claim_c9_amended [c9Purchase, c9Sale] 3
    (by
      intro i hi
      simp only [List.mem_cons, List.mem_singleton, List.not_mem_nil, or_false] at hi
      rcases hi with rfl | rfl <;> norm_num [c9Purchase, c9Sale])
  refine ⟨h.2.1, h.2.2.2 1 ?_⟩
  norm_num [replayBatches, relevantInvoices, sortOn, List.insertionSort,
    List.orderedInsert, replayStep, consumeScratch, c9Purchase, c9Sale]

/-! ### C6: turnover statistics -/

/-- **C6.** For every invoice list with non-negative quantities, rates
and stamped `cogs`, and every date range: `totalCOGS` is the sum of
`cogs` over the sale transactions dated inside the range;
`avgInventoryValue` is the mean of the Valuation Replayer results at the
range start and end; `turnoverRatio = totalCOGS / avgInventoryValue`
with result `0` when the denominator is `0`; `avgDaysToSell =
daysInPeriod / turnoverRatio` with result `0` when the ratio is `0`;
and the computation is total — on the empty invoice list every field is
`0` and no division-by-zero fault occurs. -/
theorem claim_c6 (invs : List Invoice) (s e : Nat)
    (h : ∀ i ∈ invs, 0 ≤ i.quantityGrams ∧ 0 ≤ i.ratePerGram ∧ 0 ≤ i.cogs.getD 0) :
    (calculateTurnoverStats invs s e).totalCOGS =
      ((invs.filter (fun i => decide (i.type = TransactionType.SALE) &&
          (decide (s ≤ i.date) && decide (i.date ≤ e)))).map
        (fun i => i.cogs.getD 0)).sum ∧
    (calculateTurnoverStats invs s e).avgInventoryValue =
      (calculateInventoryValueOnDate invs s + calculateInventoryValueOnDate invs e) / 2 ∧
    (calculateTurnoverStats invs s e).turnoverRatio =
      (if (calculateTurnoverStats invs s e).avgInventoryValue = 0 then 0
       else (calculateTurnoverStats invs s e).totalCOGS
              / (calculateTurnoverStats invs s e).avgInventoryValue) ∧
    (calculateTurnoverStats invs s e).avgDaysToSell =
      (if (calculateTurnoverStats invs s e).turnoverRatio = 0 then 0
       else daysInPeriod s e / (calculateTurnoverStats invs s e).turnoverRatio) ∧
    calculateTurnoverStats [] s e = ⟨0, 0, 0, 0⟩ := by
  have h1 : ∀ i ∈ invs, 0 ≤ i.quantityGrams ∧ 0 ≤ i.ratePerGram :=
    fun i hi => ⟨(h i hi).1, (h i hi).2.1⟩
  have havg : 0 ≤ (calculateInventoryValueOnDate invs s
      + calculateInventoryValueOnDate invs e) / 2 := by
    have hs := calculateInventoryValueOnDate_nonneg (t := s) h1
    have he := calculateInventoryValueOnDate_nonneg (t := e) h1
    positivity
  have htc :
      (((invs.filter (fun i => decide (s ≤ i.date) && decide (i.date ≤ e))).filter
          (fun i => decide (i.type = TransactionType.SALE))).foldl
        (fun acc i => acc + i.cogs.getD 0) 0) =
      ((invs.filter (fun i => decide (i.type = TransactionType.SALE) &&
          (decide (s ≤ i.date) && decide (i.date ≤ e)))).map
        (fun i => i.cogs.getD 0)).sum := by
    rw [foldl_add_map (fun i : Invoice => i.cogs.getD 0), zero_add, List.filter_filter]
  have htc0 : 0 ≤ ((invs.filter (fun i => decide (i.type = TransactionType.SALE) &&
      (decide (s ≤ i.date) && decide (i.date ≤ e)))).map
        (fun i => i.cogs.getD 0)).sum := by
    refine List.sum_nonneg ?_
    intro q hq
    obtain ⟨i, hi, rfl⟩ := List.mem_map.mp hq
    exact (h i (List.mem_of_mem_filter hi)).2.2
  simp only [calculateTurnoverStats, htc]
  refine ⟨by trivial, by trivial, ?_, ?_, ?_⟩
  · rcases eq_or_lt_of_le havg with heq | hpos
    · rw [if_neg (by rw [← heq]; exact lt_irrefl 0), if_pos heq.symm]
    · rw [if_pos hpos, if_neg (by positivity)]
  · by_cases hpos : 0 < (calculateInventoryValueOnDate invs s
        + calculateInventoryValueOnDate invs e) / 2
    · rw [if_pos hpos]
      set tc := ((invs.filter (fun i => decide (i.type = TransactionType.SALE) &&
          (decide (s ≤ i.date) && decide (i.date ≤ e)))).map
            (fun i => i.cogs.getD 0)).sum with htcdef
      rcases eq_or_lt_of_le htc0 with heq | htcpos
      · rw [← heq, zero_div, if_neg (lt_irrefl 0), if_pos rfl]
      · have hr : 0 < tc / ((calculateInventoryValueOnDate invs s
            + calculateInventoryValueOnDate invs e) / 2) := div_pos htcpos hpos
        rw [if_pos hr, if_neg (by positivity)]
    · rw [if_neg hpos, if_neg (lt_irrefl 0), if_pos rfl]
  · norm_num [calculateInventoryValueOnDate, replayBatches, relevantInvoices,
      sortOn, List.insertionSort]

/-- Witness for C6: a one-purchase one-sale ledger over the range
`[1, 10]`. -/
theorem claim_c6_witness :
    (calculateTurnoverStats [c9Purchase] 1 10).avgInventoryValue =
      (calculateInventoryValueOnDate [c9Purchase] 1
        + calculateInventoryValueOnDate [c9Purchase] 10) / 2 ∧
    calculateTurnoverStats [] 1 10 = ⟨0, 0, 0, 0⟩ := by
  have h := claim_c6 [c9Purchase] 1 10
    (by
      intro i hi
      simp only [List.mem_singleton] at hi
      subst hi
      norm_num [c9Purchase])
  exact ⟨h.2.1, h.2.2.2.2⟩

/-! ### C5: the replayer is a pure, deterministic function of its inputs -/

/-- The only fields of an invoice that
`calculateInventoryValueOnDate` ever reads: date, kind, quantity, rate. -/
def replayKey (i : Invoice) : Nat × TransactionType × ℚ × ℚ :=
  (i.date, i.type, i.quantityGrams, i.ratePerGram)

/-- The replay loop expressed on the read fields alone. -/
def replayStepK (batches : List ScratchBatch) (k : Nat × TransactionType × ℚ × ℚ) :
    List ScratchBatch :=
  match k.2.1 with
  | TransactionType.PURCHASE => batches ++ [⟨k.2.2.1, k.2.2.2⟩]
  | TransactionType.SALE => consumeScratch k.2.2.1 batches

/-- The whole replayer expressed on the read fields alone. -/
def calculateInventoryValueOnDateK (ks : List (Nat × TransactionType × ℚ × ℚ))
    (targetDate : Nat) : ℚ :=
  ((sortOn (·.1) (ks.filter (fun k => decide (k.1 ≤ targetDate)))).foldl
    replayStepK []).foldl (fun sum b => sum + b.quantity * b.cost) 0

lemma filter_map_replayKey (invs : List Invoice) (t : Nat) :
    (invs.filter (fun i => decide (i.date ≤ t))).map replayKey =
      (invs.map replayKey).filter (fun k => decide (k.1 ≤ t)) := by
  induction invs with
  | nil => rfl
  | cons i rest ih =>
    by_cases hd : i.date ≤ t
    · simp [List.filter_cons, hd, replayKey, ih]
    · simp [List.filter_cons, hd, replayKey, ih]

lemma calculateInventoryValueOnDate_eq_K (invs : List Invoice) (t : Nat) :
    calculateInventoryValueOnDate invs t =
      calculateInventoryValueOnDateK (invs.map replayKey) t := by
  unfold calculateInventoryValueOnDate calculateInventoryValueOnDateK replayBatches
    relevantInvoices sortOn
  rw [← filter_map_replayKey invs t]
  rw [← List.map_insertionSort (fun a b => a.date ≤ b.date)
        (fun k1 k2 : Nat × TransactionType × ℚ × ℚ => k1.1 ≤ k2.1) replayKey _
        (fun a _ b _ => Iff.rfl)]
  rw [List.foldl_map]
  rfl

/-- **C5.** The Valuation Replayer is a pure, deterministic function of
its two inputs: the result depends only on the `(date, type,
quantityGrams, ratePerGram)` projection of the invoice list, so any two
calls on lists that agree on those read fields — whatever their other
fields, whenever the calls happen, whatever was computed in between —
return identical results.  (The embedding is a total function, mirroring
the source, which builds a fresh scratch array and never writes to its
arguments.) -/
theorem claim_c5 (l1 l2 : List Invoice) (t : Nat)
    (h : l1.map replayKey = l2.map replayKey) :
    calculateInventoryValueOnDate l1 t = calculateInventoryValueOnDate l2 t := by
  rw [calculateInventoryValueOnDate_eq_K, calculateInventoryValueOnDate_eq_K, h]

/-- Witness for C5: two invoice lists that differ in ids, parties and
amounts but agree on the replayed fields give the same value. -/
theorem claim_c5_witness :
    calculateInventoryValueOnDate
      [{ id := "x", date := 1, type := TransactionType.PURCHASE, partyName := "A",
         quantityGrams := 10, ratePerGram := 6000, gstRate := 3, gstAmount := 1,
         taxableAmount := 60000, totalAmount := 60001 }] 5 =
    calculateInventoryValueOnDate
      [{ id := "y", date := 1, type := TransactionType.PURCHASE, partyName := "B",
         quantityGrams := 10, ratePerGram := 6000, gstRate := 0, gstAmount := 0,
         taxableAmount := 60000, totalAmount := 60000, cogs := some 1 }] 5 :=
  claim_c5 _ _ 5 (by norm_num [replayKey])

/-! ### Generic lemmas about the ordered-map fold (`updateAssoc`) -/

/-- Read a key out of the JavaScript-object model, with default `d`. -/
def lookupAcc {β : Type} (d : β) (p : String) : List (String × β) → β
  | [] => d
  | (k, v) :: rest => if k = p then v else lookupAcc d p rest

lemma lookupAcc_updateAssoc_same {β : Type} (d : β) (p : String) (f : β → β) :
    ∀ acc, lookupAcc d p (updateAssoc p f d acc) = f (lookupAcc d p acc)
  | [] => by simp [updateAssoc, lookupAcc]
  | (k, v) :: rest => by
    by_cases hk : k = p
    · subst hk
      simp [updateAssoc, lookupAcc]
    · simp only [updateAssoc, if_neg hk, lookupAcc, if_neg hk]
      exact lookupAcc_updateAssoc_same d p f rest

lemma lookupAcc_updateAssoc_other {β : Type} (d d' : β) {p key : String}
    (hne : key ≠ p) (f : β → β) :
    ∀ acc, lookupAcc d p (updateAssoc key f d' acc) = lookupAcc d p acc
  | [] => by simp [updateAssoc, lookupAcc, hne]
  | (k, v) :: rest => by
    by_cases hk : k = key
    · subst hk
      simp only [updateAssoc, if_pos rfl, lookupAcc, if_neg hne]
    · simp only [updateAssoc, if_neg hk, lookupAcc]
      by_cases hp : k = p
      · rw [if_pos hp, if_pos hp]
      · rw [if_neg hp, if_neg hp]
        exact lookupAcc_updateAssoc_other d d' hne f rest

lemma mem_updateAssoc {β : Type} {key : String} {f : β → β} {d : β} :
    ∀ {acc} {e : String × β}, e ∈ updateAssoc key f d acc →
      e ∈ acc ∨ ∃ v, e.2 = f v
  | [], e, he => by
    simp only [updateAssoc, List.mem_singleton] at he
    exact Or.inr ⟨d, by rw [he]⟩
  | (k, v) :: rest, e, he => by
    by_cases hk : k = key
    · subst hk
      have he2 : e = (k, f v) ∨ e ∈ rest := by
        simpa [updateAssoc] using he
      rcases he2 with heq | hmem
      · exact Or.inr ⟨v, by rw [heq]⟩
      · exact Or.inl (List.mem_cons_of_mem _ hmem)
    · simp only [updateAssoc, if_neg hk, List.mem_cons] at he
      rcases he with rfl | hmem
      · exact Or.inl (List.mem_cons_self _ _)
      · rcases mem_updateAssoc hmem with h | h
        · exact Or.inl (List.mem_cons_of_mem _ h)
        · exact Or.inr h

lemma mem_keys_updateAssoc {β : Type} {key x : String} {f : β → β} {d : β} :
    ∀ {acc}, x ∈ (updateAssoc key f d acc).map Prod.fst →
      x ∈ acc.map Prod.fst ∨ x = key
  | [], h => by
    simp only [updateAssoc, List.map_cons, List.map_nil, List.mem_singleton] at h
    exact Or.inr h
  | (k, v) :: rest, h => by
    by_cases hk : k = key
    · subst hk
      simp only [updateAssoc, if_pos rfl] at h
      exact Or.inl h
    · simp only [updateAssoc, if_neg hk, List.map_cons, List.mem_cons] at h
      rcases h with rfl | hmem
      · exact Or.inl (by simp)
      · rcases mem_keys_updateAssoc hmem with h | h
        · exact Or.inl (by simp [h])
        · exact Or.inr h

lemma keys_updateAssoc_nodup {β : Type} {key : String} {f : β → β} {d : β} :
    ∀ {acc : List (String × β)}, (acc.map Prod.fst).Nodup →
      ((updateAssoc key f d acc).map Prod.fst).Nodup
  | [], _ => by simp [updateAssoc]
  | (k, v) :: rest, h => by
    simp only [List.map_cons, List.nodup_cons] at h
    by_cases hk : k = key
    · subst hk
      simpa [updateAssoc] using h
    · simp only [updateAssoc, if_neg hk, List.map_cons, List.nodup_cons]
      refine ⟨?_, keys_updateAssoc_nodup h.2⟩
      intro hmem
      rcases mem_keys_updateAssoc hmem with hin | heq
      · exact h.1 hin
      · exact hk heq

lemma lookupAcc_of_mem {β : Type} (d : β) :
    ∀ {acc : List (String × β)}, (acc.map Prod.fst).Nodup →
      ∀ {p : String} {a : β}, (p, a) ∈ acc → lookupAcc d p acc = a
  | [], _, p, a, h => by cases h
  | (k, v) :: rest, hnd, p, a, h => by
    simp only [List.map_cons, List.nodup_cons] at hnd
    rcases List.mem_cons.mp h with heq | hmem
    · cases heq
      simp [lookupAcc]
    · have hkp : k ≠ p := by
        intro hk
        subst hk
        exact hnd.1 (List.mem_map.mpr ⟨(k, a), hmem, rfl⟩)
      simp only [lookupAcc, if_neg hkp]
      exact lookupAcc_of_mem d hnd.2 hmem

lemma foldUpdate_lookup {ι β : Type} (keyf : ι → String) (bump : ι → β → β)
    (dflt : String → β) (step : List (String × β) → ι → List (String × β))
    (hstep : ∀ acc i, step acc i = updateAssoc (keyf i) (bump i) (dflt (keyf i)) acc) :
    ∀ (l : List ι) (acc : List (String × β)) (p : String),
      lookupAcc (dflt p) p (l.foldl step acc) =
        (l.filter (fun i => decide (keyf i = p))).foldl (fun a i => bump i a)
          (lookupAcc (dflt p) p acc)
  | [], acc, p => rfl
  | i :: rest, acc, p => by
    rw [List.foldl_cons, foldUpdate_lookup keyf bump dflt step hstep rest _ p, hstep]
    by_cases hkey : keyf i = p
    · rw [hkey, List.filter_cons_of_pos (by simp [hkey]), List.foldl_cons,
          lookupAcc_updateAssoc_same]
    · rw [List.filter_cons_of_neg (by simp [hkey]),
          lookupAcc_updateAssoc_other _ _ hkey]

lemma foldUpdate_keys_nodup {ι β : Type} (keyf : ι → String) (bump : ι → β → β)
    (dflt : String → β) (step : List (String × β) → ι → List (String × β))
    (hstep : ∀ acc i, step acc i = updateAssoc (keyf i) (bump i) (dflt (keyf i)) acc) :
    ∀ (l : List ι) (acc : List (String × β)), (acc.map Prod.fst).Nodup →
      ((l.foldl step acc).map Prod.fst).Nodup
  | [], acc, h => h
  | i :: rest, acc, h => by
    rw [List.foldl_cons, hstep]
    exact foldUpdate_keys_nodup keyf bump dflt step hstep rest _
      (keys_updateAssoc_nodup h)

lemma foldUpdate_entry_prop {ι β : Type} (keyf : ι → String) (bump : ι → β → β)
    (dflt : String → β) (step : List (String × β) → ι → List (String × β))
    (hstep : ∀ acc i, step acc i = updateAssoc (keyf i) (bump i) (dflt (keyf i)) acc)
    (P : β → Prop) (hbump : ∀ i a, P (bump i a)) :
    ∀ (l : List ι) (acc : List (String × β)), (∀ e ∈ acc, P (Prod.snd e)) →
      ∀ e ∈ l.foldl step acc, P (Prod.snd e)
  | [], acc, hacc, e, he => hacc e he
  | i :: rest, acc, hacc, e, he => by
    rw [List.foldl_cons, hstep] at he
    refine foldUpdate_entry_prop keyf bump dflt step hstep P hbump rest _ ?_ e he
    intro x hx
    rcases mem_updateAssoc hx with h | ⟨v, hv⟩
    · exact hacc x h
    · rw [hv]
      exact hbump i v

/-- The value stored for party `p` after the whole grouping fold is the
bump-fold of `p`'s own invoices over the creation default. -/
lemma foldUpdate_mem_spec {ι β : Type} (keyf : ι → String) (bump : ι → β → β)
    (dflt : String → β) (step : List (String × β) → ι → List (String × β))
    (hstep : ∀ acc i, step acc i = updateAssoc (keyf i) (bump i) (dflt (keyf i)) acc)
    (l : List ι) {p : String} {a : β} (hmem : (p, a) ∈ l.foldl step []) :
    a = (l.filter (fun i => decide (keyf i = p))).foldl (fun x i => bump i x) (dflt p) := by
  have hnd : ((l.foldl step []).map Prod.fst).Nodup :=
    foldUpdate_keys_nodup keyf bump dflt step hstep l [] (by simp)
  have hl := lookupAcc_of_mem (dflt p) hnd hmem
  rw [← hl, foldUpdate_lookup keyf bump dflt step hstep l [] p]
  rfl

/-! ### C10: supplier statistics -/

lemma suppBumpFold :
    ∀ (l : List Invoice) (a : SupplierAcc),
      l.foldl (fun x i => suppBump i x) a =
        { totalGrams := a.totalGrams + (l.map (·.quantityGrams)).sum,
          totalCost := a.totalCost
            + (l.map (fun i => i.quantityGrams * i.ratePerGram)).sum,
          count := a.count + l.length,
          rates := a.rates ++ l.map (·.ratePerGram) }
  | [], a => by cases a <;> simp
  | i :: rest, a => by
    rw [List.foldl_cons, suppBumpFold rest]
    cases a
    simp only [suppBump, List.map_cons, List.sum_cons, List.length_cons,
      SupplierAcc.mk.injEq, List.append_assoc, List.singleton_append]
    exact ⟨by ring, by ring, by omega, trivial⟩

lemma foldl_min_le_init : ∀ (l : List ℚ) (a : ℚ), l.foldl min a ≤ a
  | [], a => le_refl a
  | b :: t, a =>
    le_trans (foldl_min_le_init t (min a b)) (min_le_left a b)

lemma jsMinList_le : ∀ {l : List ℚ} {x : ℚ}, x ∈ l → jsMinList l ≤ x := by
  have aux : ∀ (t : List ℚ) (a x : ℚ), x ∈ t → t.foldl min a ≤ x := by
    intro t
    induction t with
    | nil => intro a x hx; cases hx
    | cons b t ih =>
      intro a x hx
      rcases List.mem_cons.mp hx with rfl | hmem
      · exact le_trans (foldl_min_le_init t (min a x)) (min_le_right a x)
      · exact ih (min a b) x hmem
  intro l x hx
  cases l with
  | nil => cases hx
  | cons a t =>
    rcases List.mem_cons.mp hx with rfl | hmem
    · exact foldl_min_le_init t x
    · exact aux t a x hmem

lemma foldl_max_init_le : ∀ (l : List ℚ) (a : ℚ), a ≤ l.foldl max a
  | [], a => le_refl a
  | b :: t, a =>
    le_trans (le_max_left a b) (foldl_max_init_le t (max a b))

lemma le_jsMaxList : ∀ {l : List ℚ} {x : ℚ}, x ∈ l → x ≤ jsMaxList l := by
  have aux : ∀ (t : List ℚ) (a x : ℚ), x ∈ t → x ≤ t.foldl max a := by
    intro t
    induction t with
    | nil => intro a x hx; cases hx
    | cons b t ih =>
      intro a x hx
      rcases List.mem_cons.mp hx with rfl | hmem
      · exact le_trans (le_max_right a x) (foldl_max_init_le t (max a x))
      · exact ih (max a b) x hmem
  intro l x hx
  cases l with
  | nil => cases hx
  | cons a t =>
    rcases List.mem_cons.mp hx with rfl | hmem
    · exact foldl_max_init_le t x
    · exact aux t a x hmem

/-- **C10.** For every invoice list whose purchase transactions all have
positive `quantityGrams`, every entry of `calculateSupplierStats`
satisfies `minRate ≤ avgRate ≤ maxRate` (the quantity-weighted average
rate lies between the observed extremes) and
`volatility = maxRate − minRate ≥ 0`. -/
theorem claim_c10 (invs : List Invoice)
    (h : ∀ i ∈ invs, i.type = TransactionType.PURCHASE → 0 < i.quantityGrams) :
    ∀ e ∈ calculateSupplierStats invs,
      e.minRate ≤ e.avgRate ∧ e.avgRate ≤ e.maxRate ∧
      e.volatility = e.maxRate - e.minRate ∧ 0 ≤ e.volatility := by
  intro e he
  unfold calculateSupplierStats at he
  rw [mem_sortOn] at he
  obtain ⟨⟨p, a⟩, hpa, rfl⟩ := List.mem_map.mp he
  simp only [supplierFold] at hpa
  have hstep : ∀ (acc : List (String × SupplierAcc)) (i : Invoice),
      (fun acc inv => updateAssoc inv.partyName (suppBump inv) ⟨0, 0, 0, []⟩ acc) acc i =
        updateAssoc ((fun i : Invoice => i.partyName) i) (suppBump i)
          ((fun _ : String => (⟨0, 0, 0, []⟩ : SupplierAcc)) ((fun i : Invoice => i.partyName) i))
          acc := fun _ _ => rfl
  have ha := foldUpdate_mem_spec (fun i : Invoice => i.partyName) suppBump
    (fun _ => ⟨0, 0, 0, []⟩) _ hstep _ hpa
  have hcount : 1 ≤ a.count := by
    have := foldUpdate_entry_prop (fun i : Invoice => i.partyName) suppBump
      (fun _ => ⟨0, 0, 0, []⟩) _ hstep (fun x => 1 ≤ x.count)
      (fun i x => Nat.le_add_left 1 x.count)
      (invs.filter (fun i => decide (i.type = TransactionType.PURCHASE))) []
      (by intro x hx; cases hx) (p, a) hpa
    exact this
  set L := ((invs.filter (fun i => decide (i.type = TransactionType.PURCHASE))).filter
    (fun i => decide ((fun i : Invoice => i.partyName) i = p))) with hLdef
  rw [suppBumpFold] at ha
  have hmemL : ∀ i ∈ L, i ∈ invs ∧ i.type = TransactionType.PURCHASE := by
    intro i hi
    rw [hLdef] at hi
    have h1 := List.mem_of_mem_filter hi
    refine ⟨List.mem_of_mem_filter h1, ?_⟩
    have := List.of_mem_filter h1
    simpa using this
  have hqpos : ∀ i ∈ L, 0 < i.quantityGrams := by
    intro i hi
    obtain ⟨h1, h2⟩ := hmemL i hi
    exact h i h1 h2
  have hLne : L ≠ [] := by
    intro hnil
    rw [ha, hnil] at hcount
    simp at hcount
  have hQpos : 0 < (L.map (·.quantityGrams)).sum := by
    rcases List.exists_mem_of_ne_nil L hLne with ⟨i0, hi0⟩
    have : ∀ q ∈ L.map (·.quantityGrams), 0 < q := by
      intro q hq
      obtain ⟨i, hi, rfl⟩ := List.mem_map.mp hq
      exact hqpos i hi
    exact List.sum_pos _ this (by
      intro hmapnil
      exact hLne (List.map_eq_nil_iff.mp hmapnil))
  have hgrams : a.totalGrams = (L.map (·.quantityGrams)).sum := by rw [ha]; simp
  have hcost : a.totalCost = (L.map (fun i => i.quantityGrams * i.ratePerGram)).sum := by
    rw [ha]; simp
  have hrates : a.rates = L.map (·.ratePerGram) := by rw [ha]; simp
  have hTG : 0 < a.totalGrams := by rw [hgrams]; exact hQpos
  have hlow : jsMinList a.rates * a.totalGrams ≤ a.totalCost := by
    rw [hcost, hgrams]
    calc jsMinList a.rates * (L.map (·.quantityGrams)).sum
        = (L.map (fun i => i.quantityGrams * jsMinList a.rates)).sum := by
          rw [List.sum_map_mul_right]
          ring
      _ ≤ (L.map (fun i => i.quantityGrams * i.ratePerGram)).sum := by
          refine List.sum_le_sum ?_
          intro i hi
          have hr : jsMinList a.rates ≤ i.ratePerGram := by
            refine jsMinList_le ?_
            rw [hrates]
            exact List.mem_map.mpr ⟨i, hi, rfl⟩
          exact mul_le_mul_of_nonneg_left hr (le_of_lt (hqpos i hi))
  have hhigh : a.totalCost ≤ jsMaxList a.rates * a.totalGrams := by
    rw [hcost, hgrams]
    calc (L.map (fun i => i.quantityGrams * i.ratePerGram)).sum
        ≤ (L.map (fun i => i.quantityGrams * jsMaxList a.rates)).sum := by
          refine List.sum_le_sum ?_
          intro i hi
          have hr : i.ratePerGram ≤ jsMaxList a.rates := by
            refine le_jsMaxList ?_
            rw [hrates]
            exact List.mem_map.mpr ⟨i, hi, rfl⟩
          exact mul_le_mul_of_nonneg_left hr (le_of_lt (hqpos i hi))
      _ = jsMaxList a.rates * (L.map (·.quantityGrams)).sum := by
          rw [List.sum_map_mul_right]
          ring
  have havg1 : jsMinList a.rates ≤ a.totalCost / a.totalGrams :=
    (le_div_iff₀ hTG).mpr hlow
  have havg2 : a.totalCost / a.totalGrams ≤ jsMaxList a.rates :=
    (div_le_iff₀ hTG).mpr hhigh
  refine ⟨?_, ?_, rfl, ?_⟩
  · simpa [if_pos hTG] using havg1
  · simpa [if_pos hTG] using havg2
  · have := le_trans havg1 havg2
    simp only
    linarith

/-- The two purchases of the C10 witness. -/
def c10Purchase1 : Invoice :=
  { id := "q1", date := 1, type := TransactionType.PURCHASE, partyName := "S",
    quantityGrams := 1, ratePerGram := 6000, gstRate := 3, gstAmount := 0,
    taxableAmount := 6000, totalAmount := 6000 }

def c10Purchase2 : Invoice :=
  { id := "q2", date := 2, type := TransactionType.PURCHASE, partyName := "S",
    quantityGrams := 3, ratePerGram := 6200, gstRate := 3, gstAmount := 0,
    taxableAmount := 18600, totalAmount := 18600 }

/-- Witness for C10: the supplier table of two concrete purchases has an
entry, and that entry satisfies the min/avg/max ordering. -/
theorem claim_c10_witness :
    ∃ e ∈ calculateSupplierStats [c10Purchase1, c10Purchase2],
      e.minRate ≤ e.avgRate ∧ e.avgRate ≤ e.maxRate ∧
      e.volatility = e.maxRate - e.minRate ∧ 0 ≤ e.volatility := by
  have hmem :
      ({ name := "S",
         totalGramsPurchased := 4,
         avgRate := 6150,
         minRate := 6000,
         maxRate := 6200,
         volatility := 200,
         txCount := 2 } : SupplierStat) ∈
        calculateSupplierStats [c10Purchase1, c10Purchase2] := by
    norm_num [calculateSupplierStats, supplierFold, updateAssoc, suppBump,
      jsMinList, jsMaxList, sortOn, List.insertionSort, List.orderedInsert,
      c10Purchase1, c10Purchase2]
  refine ⟨_, hmem, claim_c10 [c10Purchase1, c10Purchase2] ?_ _ hmem⟩
  intro i hi
  simp only [List.mem_cons, List.mem_singleton, List.not_mem_nil, or_false] at hi
  rcases hi with rfl | rfl <;> norm_num [c10Purchase1, c10Purchase2]

/-! ### C7: customer statistics -/

/-- All transactions of counterparty `p`, purchases included. -/
def partyTxCount (invs : List Invoice) (p : String) : Nat :=
  (invs.filter (fun i => decide (i.partyName = p))).length

/-- The sale transactions of counterparty `p`. -/
def partySales (invs : List Invoice) (p : String) : List Invoice :=
  invs.filter (fun i => decide (i.type = TransactionType.SALE) && decide (i.partyName = p))

def partySaleCount (invs : List Invoice) (p : String) : Nat :=
  (partySales invs p).length

def partySaleGrams (invs : List Invoice) (p : String) : ℚ :=
  ((partySales invs p).map (·.quantityGrams)).sum

def partySaleSpend (invs : List Invoice) (p : String) : ℚ :=
  ((partySales invs p).map (·.totalAmount)).sum

def partySaleProfit (invs : List Invoice) (p : String) : ℚ :=
  ((partySales invs p).map (fun i => i.profit.getD 0)).sum

/-- The behaviour tag the code computes for counterparty `p`, expressed
on per-party aggregates of the input list: the transaction count feeding
both the `Bulk Buyer` average and the `Frequent` threshold is the
party's *total* transaction count (purchases and sales), while grams,
spend and profit come from sales only. -/
def expectedPattern (invs : List Invoice) (p : String) : String :=
  let spend := partySaleSpend invs p
  let margin := if 0 < spend then partySaleProfit invs p / spend * 100 else 0
  let avgQty := partySaleGrams invs p / (partyTxCount invs p : ℚ)
  let base :=
    if 100 < avgQty then "Bulk Buyer"
    else if 5 < partyTxCount invs p then "Frequent"
    else "Regular"
  if margin < 0.5 then base ++ " (Price Sensitive)"
  else if 2.0 < margin then base ++ " (High Margin)"
  else base

lemma purchase_eq_sale_false :
    (TransactionType.PURCHASE = TransactionType.SALE) = False :=
  eq_false (by intro h; cases h)

lemma sale_eq_purchase_false :
    (TransactionType.SALE = TransactionType.PURCHASE) = False :=
  eq_false (by intro h; cases h)

lemma custBumpFold :
    ∀ (l : List Invoice) (a : CustomerAcc),
      l.foldl (fun x i => custBump i x) a =
        { name := a.name,
          totalGrams := a.totalGrams +
            ((l.filter (fun i => decide (i.type = TransactionType.SALE))).map
              (·.quantityGrams)).sum,
          totalSpend := a.totalSpend +
            ((l.filter (fun i => decide (i.type = TransactionType.SALE))).map
              (·.totalAmount)).sum,
          profitContribution := a.profitContribution +
            ((l.filter (fun i => decide (i.type = TransactionType.SALE))).map
              (fun i => i.profit.getD 0)).sum,
          txCount := a.txCount + l.length }
  | [], a => by cases a <;> simp
  | i :: rest, a => by
    rw [List.foldl_cons, custBumpFold rest]
    cases htype : i.type with
    | PURCHASE =>
      cases a
      simp only [custBump, htype, List.filter_cons, List.length_cons,
        CustomerAcc.mk.injEq, decide_eq_true_eq, purchase_eq_sale_false,
        if_false, eq_self_iff_true, if_true]
      repeat' apply And.intro
      all_goals first | rfl | ring | omega
    | SALE =>
      cases a
      simp only [custBump, htype, List.filter_cons, List.length_cons,
        CustomerAcc.mk.injEq, decide_eq_true_eq, eq_self_iff_true, if_true,
        List.map_cons, List.sum_cons]
      repeat' apply And.intro
      all_goals first | rfl | ring | omega

/-- The six purchases and one sale of the C7 counterexample: party "A"
has seven transactions in total but only a single sale. -/
def c7Purchase (n : String) (d : Nat) : Invoice :=
  { id := n, date := d, type := TransactionType.PURCHASE, partyName := "A",
    quantityGrams := 1, ratePerGram := 1, gstRate := 0, gstAmount := 0,
    taxableAmount := 1, totalAmount := 1 }

def c7Sale : Invoice :=
  { id := "s", date := 7, type := TransactionType.SALE, partyName := "A",
    quantityGrams := 10, ratePerGram := 10, gstRate := 0, gstAmount := 0,
    taxableAmount := 100, totalAmount := 100, profit := some 1 }

def c7List : List Invoice :=
  [c7Purchase "1" 1, c7Purchase "2" 2, c7Purchase "3" 3, c7Purchase "4" 4,
   c7Purchase "5" 5, c7Purchase "6" 6, c7Sale]

/-- **C7, counterexample.**  The claim derives the `"Frequent"` tag from
the counterparty's *sale* transaction count.  For a party with six
purchases and one profitable sale the code reports `"Frequent"` (its
`txCount` counts purchases too, 7 > 5), although the party has exactly
one sale transaction and its average of 10 g per transaction is far
below the 100 g `Bulk Buyer` threshold, so the claim as stated predicts
`"Regular"`. -/
theorem claim_c7_counterexample :
    (customerData c7List).map (·.behaviorPattern) = ["Frequent"] ∧
    partySaleCount c7List "A" = 1 ∧
    ¬ 5 < partySaleCount c7List "A" ∧
    partySaleGrams c7List "A" / (partySaleCount c7List "A" : ℚ) = 10 ∧
    ¬ (100 : ℚ) < 10 := by
  refine ⟨?_,
    by norm_num [partySaleCount, partySales, c7List, c7Purchase, c7Sale,
      purchase_eq_sale_false],
    by norm_num [partySaleCount, partySales, c7List, c7Purchase, c7Sale,
      purchase_eq_sale_false],
    by norm_num [partySaleGrams, partySaleCount, partySales, c7List, c7Purchase,
      c7Sale, purchase_eq_sale_false],
    by norm_num⟩
  norm_num [customerData, customerFold, updateAssoc, custBump, mkCustomerRow,
    sortOn, List.insertionSort, List.orderedInsert, c7List, c7Purchase, c7Sale,
    purchase_eq_sale_false]

/-- **C7, amended.**  For every invoice list, every entry of the
customer statistics carries its counterparty's aggregates — where the
transaction count includes *both* purchases and sales of that party,
while grams, spend and profit contribution come from sales only — has
positive total spend, and its `behaviorPattern` equals the tag computed
from those aggregates: base `"Bulk Buyer"` if total sale grams divided
by the total (purchase + sale) transaction count exceeds 100, else
`"Frequent"` if that total transaction count exceeds 5, else
`"Regular"`; with `" (Price Sensitive)"` appended when margin < 0.5 and
otherwise `" (High Margin)"` when margin > 2.0 (never both).  The
result list is sorted descending by profit contribution. -/
theorem claim_c7_amended (invs : List Invoice) :
    (∀ e ∈ customerData invs,
      e.txCount = partyTxCount invs e.name ∧
      e.totalGrams = partySaleGrams invs e.name ∧
      e.totalSpend = partySaleSpend invs e.name ∧
      e.profitContribution = partySaleProfit invs e.name ∧
      0 < e.totalSpend ∧
      e.behaviorPattern = expectedPattern invs e.name) ∧
    List.Pairwise (fun a b => b.profitContribution ≤ a.profitContribution)
      (customerData invs) := by
  constructor
  · intro e he
    unfold customerData at he
    rw [mem_sortOn] at he
    obtain ⟨a, ha, rfl⟩ := List.mem_map.mp he
    have haspend : 0 < a.totalSpend := by
      have := List.of_mem_filter ha
      simpa using this
    have hamem : a ∈ (customerFold invs).map Prod.snd := List.mem_of_mem_filter ha
    obtain ⟨x, hx, hxa⟩ := List.mem_map.mp hamem
    have hx2 : (x.1, x.2) ∈ customerFold invs := by rwa [Prod.mk.eta]
    simp only [customerFold] at hx2
    have hstep : ∀ (acc : List (String × CustomerAcc)) (i : Invoice),
        (fun acc inv =>
          updateAssoc inv.partyName (custBump inv) ⟨inv.partyName, 0, 0, 0, 0⟩ acc) acc i =
          updateAssoc ((fun i : Invoice => i.partyName) i) (custBump i)
            ((fun p : String => (⟨p, 0, 0, 0, 0⟩ : CustomerAcc))
              ((fun i : Invoice => i.partyName) i)) acc :=
      fun _ _ => rfl
    have ha2 := foldUpdate_mem_spec (fun i : Invoice => i.partyName) custBump
      (fun p => ⟨p, 0, 0, 0, 0⟩) _ hstep invs hx2
    rw [custBumpFold] at ha2
    subst hxa
    have hname : x.2.name = x.1 := by rw [ha2]
    have hcount : x.2.txCount = partyTxCount invs x.1 := by
      rw [ha2, partyTxCount]
      simp
    have hgrams : x.2.totalGrams = partySaleGrams invs x.1 := by
      rw [ha2, partySaleGrams, partySales, ← List.filter_filter]
      simp
    have hspend : x.2.totalSpend = partySaleSpend invs x.1 := by
      rw [ha2, partySaleSpend, partySales, ← List.filter_filter]
      simp
    have hprofit : x.2.profitContribution = partySaleProfit invs x.1 := by
      rw [ha2, partySaleProfit, partySales, ← List.filter_filter]
      simp
    refine ⟨?_, ?_, ?_, ?_, ?_, ?_⟩
    · show (mkCustomerRow x.2).txCount = partyTxCount invs (mkCustomerRow x.2).name
      simp only [mkCustomerRow]
      rw [hname, hcount]
    · show (mkCustomerRow x.2).totalGrams = partySaleGrams invs (mkCustomerRow x.2).name
      simp only [mkCustomerRow]
      rw [hname, hgrams]
    · show (mkCustomerRow x.2).totalSpend = partySaleSpend invs (mkCustomerRow x.2).name
      simp only [mkCustomerRow]
      rw [hname, hspend]
    · show (mkCustomerRow x.2).profitContribution
        = partySaleProfit invs (mkCustomerRow x.2).name
      simp only [mkCustomerRow]
      rw [hname, hprofit]
    · show 0 < (mkCustomerRow x.2).totalSpend
      simpa only [mkCustomerRow] using haspend
    · show (mkCustomerRow x.2).behaviorPattern
        = expectedPattern invs (mkCustomerRow x.2).name
      simp only [mkCustomerRow, expectedPattern]
      simp only [hname, hcount, hgrams, hspend, hprofit]
  · have hp : List.Pairwise
        (fun a b : CustomerRow => -a.profitContribution ≤ -b.profitContribution)
        (customerData invs) := by
      unfold customerData
      exact sortOn_pairwise _ _
    exact hp.imp (fun hab => by linarith)

/-- Witness for C7 (amended): the counterexample ledger has an entry and
the entry's tag agrees with the amended rule. -/
theorem claim_c7_witness :
    ∃ e ∈ customerData c7List, e.behaviorPattern = expectedPattern c7List e.name := by
  have hne : customerData c7List ≠ [] := by
    norm_num [customerData, customerFold, updateAssoc, custBump, mkCustomerRow,
      sortOn, List.insertionSort, List.orderedInsert, c7List, c7Purchase, c7Sale,
      purchase_eq_sale_false]
  obtain ⟨e, rest, h⟩ := List.exists_cons_of_ne_nil hne
  have hmem : e ∈ customerData c7List := by rw [h]; simp
  exact ⟨e, hmem, ((claim_c7_amended c7List).1 e hmem).2.2.2.2.2⟩

/-! ### C4: conservation of quantity -/

/-- Total quantity of all committed sale transactions. -/
def soldQuantity (s : AppState) : ℚ :=
  ((s.invoices.filter (fun i => decide (i.type = TransactionType.SALE))).map
    (·.quantityGrams)).sum

/-- Number of committed sale transactions. -/
def salesCount (s : AppState) : Nat :=
  (s.invoices.filter (fun i => decide (i.type = TransactionType.SALE))).length

def sumOriginal (inventory : List InventoryBatch) : ℚ :=
  (inventory.map (·.originalQuantity)).sum

def sumRemaining (inventory : List InventoryBatch) : ℚ :=
  (inventory.map (·.remainingQuantity)).sum

lemma allocate_map_original :
    ∀ (lots : List InventoryBatch) (t : ℚ) (d : Nat) (r : ℚ),
      (allocate t lots d r).1.map (·.originalQuantity) =
        lots.map (·.originalQuantity)
  | [], t, d, r => by simp [allocate_nil]
  | b :: rest, t, d, r => by
    by_cases h1 : t ≤ 0
    · rw [allocate_cons_stop h1]
    · by_cases h2 : 0 < b.remainingQuantity
      · rw [allocate_cons_take h1 h2]
        simp only [List.map_cons, allocate_map_original rest]
        congr 1
        simp only [allocUpdate]
        split_ifs <;> rfl
      · rw [allocate_cons_skip h1 h2]
        simp only [List.map_cons, allocate_map_original rest]

lemma allocate_perlot :
    ∀ (lots : List InventoryBatch),
      (∀ b ∈ lots, 0 ≤ b.remainingQuantity ∧ b.remainingQuantity ≤ b.originalQuantity) →
      ∀ (t : ℚ) (d : Nat) (r : ℚ), ∀ b' ∈ (allocate t lots d r).1,
        0 ≤ b'.remainingQuantity ∧ b'.remainingQuantity ≤ b'.originalQuantity
  | [], _, t, d, r, b', hb' => by simp [allocate_nil] at hb'
  | b :: rest, h, t, d, r, b', hb' => by
    have hb := h b (by simp)
    have hrest : ∀ x ∈ rest, 0 ≤ x.remainingQuantity ∧ x.remainingQuantity ≤ x.originalQuantity :=
      fun x hx => h x (by simp [hx])
    by_cases h1 : t ≤ 0
    · rw [allocate_cons_stop h1] at hb'
      exact h b' hb'
    · by_cases h2 : 0 < b.remainingQuantity
      · rw [allocate_cons_take h1 h2] at hb'
        rcases List.mem_cons.mp hb' with rfl | hmem
        · have htake : min b.remainingQuantity t ≤ b.remainingQuantity := min_le_left _ _
          have htake0 : 0 ≤ min b.remainingQuantity t :=
            le_min (le_of_lt h2) (by linarith)
          simp only [allocUpdate]
          split_ifs with hsnap
          · constructor
            · norm_num
            · show (0 : ℚ) ≤ b.originalQuantity
              exact le_trans hb.1 hb.2
          · constructor
            · show 0 ≤ b.remainingQuantity - min b.remainingQuantity t
              linarith
            · show b.remainingQuantity - min b.remainingQuantity t ≤ b.originalQuantity
              linarith [hb.2]
        · exact allocate_perlot rest hrest _ d r b' hmem
      · rw [allocate_cons_skip h1 h2] at hb'
        rcases List.mem_cons.mp hb' with rfl | hmem
        · exact hb
        · exact allocate_perlot rest hrest _ d r b' hmem

lemma allocate_sum_bound :
    ∀ (lots : List InventoryBatch) {t : ℚ}, 0 ≤ t → ∀ (d : Nat) (r : ℚ),
      sumRemaining (allocate t lots d r).1
          ≤ sumRemaining lots - (t - (allocate t lots d r).2.2) ∧
        sumRemaining lots - (t - (allocate t lots d r).2.2) - 0.0001
          ≤ sumRemaining (allocate t lots d r).1
  | [], t, ht, d, r => by
    simp [allocate_nil, sumRemaining]
    norm_num
  | b :: rest, t, ht, d, r => by
    by_cases h1 : t ≤ 0
    · rw [allocate_cons_stop h1]
      constructor <;> [simp; norm_num]
    · by_cases h2 : 0 < b.remainingQuantity
      · rw [allocate_cons_take h1 h2]
        rcases le_or_lt b.remainingQuantity t with hcase | hcase
        · -- the lot is fully drained: take = remainingQuantity
          have hmin : min b.remainingQuantity t = b.remainingQuantity := min_eq_left hcase
          have hupd : allocUpdate b t d r =
              { b with remainingQuantity := 0, closedDate := some d,
                       totalRevenue := some (b.totalRevenue.getD 0
                         + min b.remainingQuantity t * r) } := by
            unfold allocUpdate
            rw [if_pos (by rw [hmin]; norm_num)]
          have ih := allocate_sum_bound rest
            (t := t - min b.remainingQuantity t) (by rw [hmin]; linarith) d r
          rw [hupd]
          simp only [sumRemaining, List.map_cons, List.sum_cons] at ih ⊢
          rw [hmin] at ih ⊢
          constructor <;> linarith [ih.1, ih.2]
        · -- the lot covers the sale: take = t, recursion sees 0
          have hmin : min b.remainingQuantity t = t := min_eq_right (le_of_lt hcase)
          have hzero : allocate (t - min b.remainingQuantity t) rest d r =
              (rest, 0, t - min b.remainingQuantity t) := by
            rw [hmin, sub_self]
            exact allocate_nonpos (le_refl 0) rest d r
          rw [hzero]
          simp only [sumRemaining, List.map_cons, List.sum_cons, hmin, sub_self]
          unfold allocUpdate
          rw [hmin]
          by_cases hsnap : b.remainingQuantity - t < 0.0001
          · rw [if_pos hsnap]
            simp only [List.map_cons, List.sum_cons]
            constructor <;> linarith
          · rw [if_neg hsnap]
            simp only [List.map_cons, List.sum_cons]
            constructor <;> linarith
      · rw [allocate_cons_skip h1 h2]
        have ih := allocate_sum_bound rest ht d r
        simp only [sumRemaining, List.map_cons, List.sum_cons] at ih ⊢
        constructor <;> linarith [ih.1, ih.2]

lemma sum_map_sortOn {α κ : Type} [LinearOrder κ] (key : α → κ) (f : α → ℚ)
    (l : List α) : ((sortOn key l).map f).sum = (l.map f).sum :=
  ((sortOn_perm key l).map f).sum_eq

/-- The conservation invariant the ledger actually maintains: the
difference between purchased-minus-sold and on-hand quantity stays
within `0.001` per committed sale, and every lot's remaining quantity
stays inside `[0, originalQuantity]`. -/
def ConservInv (s : AppState) : Prop :=
  -(0.001 * (salesCount s : ℚ)) ≤
      sumOriginal s.inventory - soldQuantity s - sumRemaining s.inventory ∧
  sumOriginal s.inventory - soldQuantity s - sumRemaining s.inventory ≤
      0.001 * (salesCount s : ℚ) ∧
  ∀ b ∈ s.inventory, 0 ≤ b.remainingQuantity ∧ b.remainingQuantity ≤ b.originalQuantity

lemma conserv_step (s : AppState) (op : Invoice) (hq : 0 ≤ op.quantityGrams)
    (hinv : ConservInv s) : ConservInv (handleAddInvoice s op).1 := by
  obtain ⟨hlow, hup, hperlot⟩ := hinv
  cases htype : op.type with
  | PURCHASE =>
    simp only [handleAddInvoice, htype]
    have hsales : salesCount
        { invoices := op :: s.invoices,
          inventory := sortOn (·.date) (s.inventory ++ [mkBatch op]) } = salesCount s := by
      simp [salesCount, List.filter_cons, htype, purchase_eq_sale_false]
    have hsold : soldQuantity
        { invoices := op :: s.invoices,
          inventory := sortOn (·.date) (s.inventory ++ [mkBatch op]) } = soldQuantity s := by
      simp [soldQuantity, List.filter_cons, htype, purchase_eq_sale_false]
    have horig : sumOriginal (sortOn (·.date) (s.inventory ++ [mkBatch op])) =
        sumOriginal s.inventory + op.quantityGrams := by
      unfold sumOriginal
      rw [sum_map_sortOn]
      simp [mkBatch]
    have hrem : sumRemaining (sortOn (·.date) (s.inventory ++ [mkBatch op])) =
        sumRemaining s.inventory + op.quantityGrams := by
      unfold sumRemaining
      rw [sum_map_sortOn]
      simp [mkBatch]
    refine ⟨?_, ?_, ?_⟩
    · rw [hsales, hsold]
      show -(0.001 * (salesCount s : ℚ)) ≤
        sumOriginal (sortOn (·.date) (s.inventory ++ [mkBatch op])) - soldQuantity s
          - sumRemaining (sortOn (·.date) (s.inventory ++ [mkBatch op]))
      rw [horig, hrem]
      linarith
    · rw [hsales, hsold]
      show sumOriginal (sortOn (·.date) (s.inventory ++ [mkBatch op])) - soldQuantity s
          - sumRemaining (sortOn (·.date) (s.inventory ++ [mkBatch op]))
        ≤ 0.001 * (salesCount s : ℚ)
      rw [horig, hrem]
      linarith
    · intro b hb
      rw [mem_sortOn] at hb
      rcases List.mem_append.mp hb with hmem | hmem
      · exact hperlot b hmem
      · simp only [List.mem_singleton] at hmem
        subst hmem
        exact ⟨hq, le_refl _⟩
  | SALE =>
    simp only [handleAddInvoice, htype]
    by_cases hcommit :
        (0.001 : ℚ) < (allocate op.quantityGrams s.inventory op.date op.ratePerGram).2.2
    · rw [if_pos hcommit]
      exact ⟨hlow, hup, hperlot⟩
    · rw [if_neg hcommit]
      have hleft := allocate_leftover_bounds s.inventory hq op.date op.ratePerGram
      have hsum := allocate_sum_bound s.inventory hq op.date op.ratePerGram
      have horig : sumOriginal
          (allocate op.quantityGrams s.inventory op.date op.ratePerGram).1 =
          sumOriginal s.inventory := by
        unfold sumOriginal
        rw [allocate_map_original]
      have hsales : ∀ (inv' : List InventoryBatch), salesCount
          { invoices :=
              { op with
                  cogs := some
                    (allocate op.quantityGrams s.inventory op.date op.ratePerGram).2.1,
                  profit := some (op.quantityGrams * op.ratePerGram
                    - (allocate op.quantityGrams s.inventory op.date op.ratePerGram).2.1) }
                :: s.invoices,
            inventory := inv' } = salesCount s + 1 := by
        intro inv'
        simp [salesCount, List.filter_cons, htype]
      have hsold : ∀ (inv' : List InventoryBatch), soldQuantity
          { invoices :=
              { op with
                  cogs := some
                    (allocate op.quantityGrams s.inventory op.date op.ratePerGram).2.1,
                  profit := some (op.quantityGrams * op.ratePerGram
                    - (allocate op.quantityGrams s.inventory op.date op.ratePerGram).2.1) }
                :: s.invoices,
            inventory := inv' } = op.quantityGrams + soldQuantity s := by
        intro inv'
        simp [soldQuantity, List.filter_cons, htype]
      simp only [htype] at hsales hsold
      refine ⟨?_, ?_, ?_⟩
      · rw [hsales, hsold]
        push_cast
        rw [horig]
        have := not_lt.mp hcommit
        linarith [hsum.1, hsum.2, hleft.1]
      · rw [hsales, hsold]
        push_cast
        rw [horig]
        have := not_lt.mp hcommit
        linarith [hsum.1, hsum.2, hleft.1]
      · intro b hb
        exact allocate_perlot s.inventory hperlot _ op.date op.ratePerGram b hb

lemma conserv_fold :
    ∀ (ops : List Invoice) (s : AppState), ConservInv s →
      (∀ op ∈ ops, 0 ≤ op.quantityGrams) →
      ConservInv (ops.foldl (fun s op => (handleAddInvoice s op).1) s)
  | [], s, hs, _ => hs
  | op :: rest, s, hs, h => by
    rw [List.foldl_cons]
    exact conserv_fold rest _ (conserv_step s op (h op (by simp)) hs)
      (fun x hx => h x (by simp [hx]))

/-- The operation sequence of the C4 counterexample: each sale asks for
`10.001` g against `10` g of stock; both commit inside the `0.001`
tolerance, so the books drift by `0.001` per sale — `0.002` in total,
which exceeds the specification's own epsilon `1e-3`. -/
def c4Purchase (n : String) (d : Nat) : Invoice :=
  { id := n, date := d, type := TransactionType.PURCHASE, partyName := "S",
    quantityGrams := 10, ratePerGram := 6000, gstRate := 0, gstAmount := 0,
    taxableAmount := 60000, totalAmount := 60000 }

def c4Sale (n : String) (d : Nat) : Invoice :=
  { id := n, date := d, type := TransactionType.SALE, partyName := "C",
    quantityGrams := 10001/1000, ratePerGram := 6000, gstRate := 0, gstAmount := 0,
    taxableAmount := 60006, totalAmount := 60006 }

def c4Ops : List Invoice :=
  [c4Purchase "p1" 1, c4Sale "s1" 2, c4Purchase "p2" 3, c4Sale "s2" 4]

/-- **C4, counterexample.**  After two committed over-tolerance sales the
conservation discrepancy is `0.002` g: the sum of `originalQuantity`
minus the sold quantity differs from the remaining quantity by more than
the specification's epsilon (`1e-3`, the largest tolerance the code
uses), refuting exact (or fixed-epsilon) conservation. -/
theorem claim_c4_counterexample :
    sumOriginal (applyOps c4Ops).inventory - soldQuantity (applyOps c4Ops)
        - sumRemaining (applyOps c4Ops).inventory = -(1/500) ∧
    (0.001 : ℚ) < 1/500 := by
  constructor
  · norm_num [c4Ops, c4Purchase, c4Sale, applyOps, handleAddInvoice, allocate,
      mkBatch, sortOn, List.insertionSort, List.orderedInsert, min_def,
      sumOriginal, soldQuantity, sumRemaining, purchase_eq_sale_false]
  · norm_num

/-- **C4, amended.**  For every sequence of operations with non-negative
quantities, the conservation defect after the whole sequence is bounded
by `0.001` per committed sale transaction —
`|sum(originalQuantity) − sum(soldQuantity) − sum(remainingQuantity)| ≤
0.001 · salesCount` — and every lot always satisfies
`0 ≤ remainingQuantity ≤ originalQuantity`.  (Exact conservation fails
only through the two deliberate tolerances: a sale may over-draw by up
to `0.001` g and a sub-`0.0001` g sliver is snapped to zero.) -/
theorem claim_c4_amended (ops : List Invoice)
    (h : ∀ op ∈ ops, 0 ≤ op.quantityGrams) :
    |sumOriginal (applyOps ops).inventory - soldQuantity (applyOps ops)
        - sumRemaining (applyOps ops).inventory| ≤
      0.001 * (salesCount (applyOps ops) : ℚ) ∧
    ∀ b ∈ (applyOps ops).inventory,
      0 ≤ b.remainingQuantity ∧ b.remainingQuantity ≤ b.originalQuantity := by
  have hinit : ConservInv ⟨[], []⟩ := by
    refine ⟨?_, ?_, ?_⟩ <;>
      simp [salesCount, soldQuantity, sumOriginal, sumRemaining]
  have hfold := conserv_fold ops ⟨[], []⟩ hinit h
  exact ⟨abs_le.mpr ⟨hfold.1, hfold.2.1⟩, hfold.2.2⟩

/-- Witness for C4 (amended): on the counterexample sequence itself the
defect (`0.002`) is within `0.001 · 2` committed sales. -/
theorem claim_c4_witness :
    |sumOriginal (applyOps c4Ops).inventory - soldQuantity (applyOps c4Ops)
        - sumRemaining (applyOps c4Ops).inventory| ≤
      0.001 * (salesCount (applyOps c4Ops) : ℚ) ∧
    ∀ b ∈ (applyOps c4Ops).inventory,
      0 ≤ b.remainingQuantity ∧ b.remainingQuantity ≤ b.originalQuantity :=
  claim_c4_amended c4Ops (by
    intro op hop
    simp only [c4Ops, List.mem_cons, List.mem_singleton, List.not_mem_nil,
      or_false] at hop
    rcases hop with rfl | rfl | rfl | rfl <;>
      norm_num [c4Purchase, c4Sale])

/-! ### C3: live FIFO state vs. pure replay -/

/-- A quantity that is a whole number of milligrams (`n / 1000` for a
natural `n`).  Gram amounts entered with the form's three-decimal
precision have this shape; it rules out the sub-tolerance slivers
(`0 < q < 0.0001`) that the two code paths treat differently. -/
def Mil (q : ℚ) : Prop := ∃ n : ℕ, q = (n : ℚ) / 1000

lemma Mil.nonneg {q : ℚ} (h : Mil q) : 0 ≤ q := by
  obtain ⟨n, rfl⟩ := h
  positivity

lemma Mil.zero : Mil 0 := ⟨0, by norm_num⟩

lemma Mil.sub {a b : ℚ} (ha : Mil a) (hb : Mil b) (h : b ≤ a) : Mil (a - b) := by
  obtain ⟨n, rfl⟩ := ha
  obtain ⟨m, rfl⟩ := hb
  have hmn : m ≤ n := by
    have h1000 : ((m : ℚ)) ≤ n := by linarith
    exact_mod_cast h1000
  refine ⟨n - m, ?_⟩
  push_cast [Nat.cast_sub hmn]
  ring

lemma Mil.min {a b : ℚ} (ha : Mil a) (hb : Mil b) : Mil (min a b) := by
  rcases le_total a b with h | h
  · rw [min_eq_left h]; exact ha
  · rw [min_eq_right h]; exact hb

lemma Mil.pos_ge {q : ℚ} (h : Mil q) (hpos : 0 < q) : 1/1000 ≤ q := by
  obtain ⟨n, rfl⟩ := h
  have hn : 1 ≤ n := by
    by_contra hc
    push_neg at hc
    interval_cases n
    norm_num at hpos
  have h1 : (1 : ℚ) ≤ n := by exact_mod_cast hn
  linarith

/-- The `{quantity, cost}` view of the open lots: the scratch pairs a
faithful replay must reproduce. -/
def scratchOf (inventory : List InventoryBatch) : List ScratchBatch :=
  inventory.filterMap (fun b =>
    if 0 < b.remainingQuantity then some ⟨b.remainingQuantity, b.costPerGram⟩ else none)

lemma scratchOf_nil : scratchOf [] = [] := rfl

lemma scratchOf_cons_pos {b : InventoryBatch} (h : 0 < b.remainingQuantity)
    (l : List InventoryBatch) :
    scratchOf (b :: l) = ⟨b.remainingQuantity, b.costPerGram⟩ :: scratchOf l := by
  simp [scratchOf, h]

lemma scratchOf_cons_zero {b : InventoryBatch} (h : ¬ 0 < b.remainingQuantity)
    (l : List InventoryBatch) : scratchOf (b :: l) = scratchOf l := by
  simp [scratchOf, h]

lemma scratchOf_append (l1 l2 : List InventoryBatch) :
    scratchOf (l1 ++ l2) = scratchOf l1 ++ scratchOf l2 := by
  simp [scratchOf, List.filterMap_append]

/-- The replay loop does nothing when the requested quantity is inside
the `0.000001` guard. -/
lemma consumeScratch_guard {t : ℚ} (h : ¬ 0.000001 < t) :
    ∀ (l : List ScratchBatch), consumeScratch t l = l
  | [] => rfl
  | b :: rest => by rw [consumeScratch, if_neg h]

lemma allocate_map_date :
    ∀ (lots : List InventoryBatch) (t : ℚ) (d : Nat) (r : ℚ),
      (allocate t lots d r).1.map (·.date) = lots.map (·.date)
  | [], t, d, r => by simp [allocate_nil]
  | b :: rest, t, d, r => by
    by_cases h1 : t ≤ 0
    · rw [allocate_cons_stop h1]
    · by_cases h2 : 0 < b.remainingQuantity
      · rw [allocate_cons_take h1 h2]
        simp only [List.map_cons, allocate_map_date rest]
        congr 1
        simp only [allocUpdate]
        split_ifs <;> rfl
      · rw [allocate_cons_skip h1 h2]
        simp only [List.map_cons, allocate_map_date rest]

lemma allocate_mil :
    ∀ (lots : List InventoryBatch), (∀ b ∈ lots, Mil b.remainingQuantity) →
      ∀ {t : ℚ}, Mil t → ∀ (d : Nat) (r : ℚ), ∀ b' ∈ (allocate t lots d r).1,
        Mil b'.remainingQuantity
  | [], _, t, _, d, r, b', hb' => by simp [allocate_nil] at hb'
  | b :: rest, h, t, ht, d, r, b', hb' => by
    have hb := h b (by simp)
    have hrest : ∀ x ∈ rest, Mil x.remainingQuantity := fun x hx => h x (by simp [hx])
    by_cases h1 : t ≤ 0
    · rw [allocate_cons_stop h1] at hb'
      exact h b' hb'
    · by_cases h2 : 0 < b.remainingQuantity
      · rw [allocate_cons_take h1 h2] at hb'
        rcases List.mem_cons.mp hb' with rfl | hmem
        · simp only [allocUpdate]
          split_ifs with hsnap
          · exact Mil.zero
          · show Mil (b.remainingQuantity - min b.remainingQuantity t)
            exact hb.sub (hb.min ht) (min_le_left _ _)
        · exact allocate_mil rest hrest (ht.sub (hb.min ht)
            (min_le_right _ _)) d r b' hmem
      · rw [allocate_cons_skip h1 h2] at hb'
        rcases List.mem_cons.mp hb' with rfl | hmem
        · exact hb
        · exact allocate_mil rest hrest ht d r b' hmem

/-- Core correspondence: on milligram-quantized books the live allocator
and the replayer's consumption loop produce the same `{quantity, cost}`
pairs. -/
lemma scratchOf_allocate :
    ∀ (lots : List InventoryBatch), (∀ b ∈ lots, Mil b.remainingQuantity) →
      ∀ {t : ℚ}, Mil t → ∀ (d : Nat) (r : ℚ),
        scratchOf (allocate t lots d r).1 = consumeScratch t (scratchOf lots)
  | lots, h, t, ht, d, r => by
    rcases eq_or_lt_of_le ht.nonneg with hzero | hpos
    · have ht0 : t ≤ 0 := le_of_eq hzero.symm
      rw [allocate_nonpos ht0]
      rw [consumeScratch_guard (by rw [← hzero]; norm_num)]
    · have hguard : (0.000001 : ℚ) < t := lt_of_lt_of_le (by norm_num) (ht.pos_ge hpos)
      match lots, h with
      | [], _ => rw [allocate_nil, scratchOf_nil, consumeScratch]
      | b :: rest, h =>
        have hb := h b (by simp)
        have hrest : ∀ x ∈ rest, Mil x.remainingQuantity := fun x hx => h x (by simp [hx])
        have h1 : ¬ t ≤ 0 := not_le_of_lt hpos
        rcases eq_or_lt_of_le hb.nonneg with hrem0 | hrempos
        · have h2 : ¬ 0 < b.remainingQuantity := by rw [← hrem0]; exact lt_irrefl 0
          rw [allocate_cons_skip h1 h2, scratchOf_cons_zero h2,
              scratchOf_cons_zero h2]
          exact scratchOf_allocate rest hrest ht d r
        · have h2 : 0 < b.remainingQuantity := hrempos
          rw [allocate_cons_take h1 h2, scratchOf_cons_pos h2]
          rcases lt_or_le t b.remainingQuantity with hcase | hcase
          · -- the front lot covers the sale
            have hmin : min b.remainingQuantity t = t := min_eq_right (le_of_lt hcase)
            have hdiff : Mil (b.remainingQuantity - t) := hb.sub ht (le_of_lt hcase)
            have hdiffpos : 0 < b.remainingQuantity - t := by linarith
            have hnosnap : ¬ b.remainingQuantity - min b.remainingQuantity t < 0.0001 := by
              rw [hmin]
              have := hdiff.pos_ge hdiffpos
              norm_num
              linarith
            have hupd : allocUpdate b t d r =
                { b with remainingQuantity := b.remainingQuantity - min b.remainingQuantity t,
                         totalRevenue := some (b.totalRevenue.getD 0
                           + min b.remainingQuantity t * r) } := by
              simp only [allocUpdate]
              rw [if_neg hnosnap]
            rw [hupd, hmin, sub_self, allocate_nonpos (le_refl 0)]
            rw [consumeScratch, if_pos hguard, if_pos (by simpa using hcase)]
            rw [scratchOf_cons_pos (by simpa using hdiffpos)]
          · -- the front lot is fully drained
            have hmin : min b.remainingQuantity t = b.remainingQuantity :=
              min_eq_left hcase
            have hsnap : b.remainingQuantity - min b.remainingQuantity t < 0.0001 := by
              rw [hmin]
              norm_num
            have hupd : allocUpdate b t d r =
                { b with remainingQuantity := 0, closedDate := some d,
                         totalRevenue := some (b.totalRevenue.getD 0
                           + min b.remainingQuantity t * r) } := by
              simp only [allocUpdate]
              rw [if_pos hsnap]
            rw [hupd, hmin]
            rw [scratchOf_cons_zero (by simp)]
            rw [consumeScratch, if_pos hguard, if_neg (by simpa using not_lt_of_le hcase)]
            exact scratchOf_allocate rest hrest (ht.sub hb hcase) d r

/-- The simulation invariant between the live ledger and the pure
replay: the invoice list is newest-first with strictly decreasing dates,
the lot list is strictly ascending by date, every transaction is dated
on or before `today`, every lot quantity is milligram-quantized, and
replaying the committed transactions in chronological order reproduces
exactly the `{quantity, cost}` pairs of the open lots. -/
def ReplayInv (today : Nat) (s : AppState) : Prop :=
  List.Pairwise (fun a b : Invoice => b.date < a.date) s.invoices ∧
  List.Pairwise (fun a b : InventoryBatch => a.date < b.date) s.inventory ∧
  (∀ i ∈ s.invoices, i.date ≤ today) ∧
  (∀ b ∈ s.inventory, Mil b.remainingQuantity) ∧
  s.invoices.reverse.foldl replayStep [] = scratchOf s.inventory

lemma replay_step_inv (today : Nat) (s : AppState) (op : Invoice)
    (hinv : ReplayInv today s)
    (hqmil : Mil op.quantityGrams) (hqpos : 0 < op.quantityGrams)
    (hd : op.date ≤ today)
    (hinvlt : ∀ i ∈ s.invoices, i.date < op.date)
    (hlotlt : ∀ b ∈ s.inventory, b.date < op.date) :
    ReplayInv today (handleAddInvoice s op).1 ∧
    (∀ i ∈ (handleAddInvoice s op).1.invoices, i.date ≤ op.date) ∧
    (∀ b ∈ (handleAddInvoice s op).1.inventory, b.date ≤ op.date) := by
  obtain ⟨hdesc, hasc, htoday, hmil, hrep⟩ := hinv
  cases htype : op.type with
  | PURCHASE =>
    simp only [handleAddInvoice, htype]
    have hsorted : List.Pairwise (fun a b : InventoryBatch => a.date < b.date)
        (s.inventory ++ [mkBatch op]) := by
      rw [List.pairwise_append]
      refine ⟨hasc, List.pairwise_singleton _ _, ?_⟩
      intro a ha b hb
      simp only [List.mem_singleton] at hb
      subst hb
      exact hlotlt a ha
    have hid : sortOn (·.date) (s.inventory ++ [mkBatch op]) =
        s.inventory ++ [mkBatch op] := sortOn_eq_self _ hsorted
    rw [hid]
    refine ⟨⟨?_, ?_, ?_, ?_, ?_⟩, ?_, ?_⟩
    · rw [List.pairwise_cons]
      exact ⟨hinvlt, hdesc⟩
    · exact hsorted
    · intro i hi
      rcases List.mem_cons.mp hi with rfl | hmem
      · exact hd
      · exact htoday i hmem
    · intro b hb
      rcases List.mem_append.mp hb with hmem | hmem
      · exact hmil b hmem
      · simp only [List.mem_singleton] at hmem
        subst hmem
        exact hqmil
    · rw [List.reverse_cons, List.foldl_append, hrep, scratchOf_append]
      rw [List.foldl_cons, List.foldl_nil]
      rw [replayStep, htype]
      rw [scratchOf_cons_pos (by simpa [mkBatch] using hqpos)]
      rfl
    · intro i hi
      rcases List.mem_cons.mp hi with rfl | hmem
      · exact le_refl _
      · exact le_of_lt (hinvlt i hmem)
    · intro b hb
      rcases List.mem_append.mp hb with hmem | hmem
      · exact le_of_lt (hlotlt b hmem)
      · simp only [List.mem_singleton] at hmem
        subst hmem
        exact le_refl _
  | SALE =>
    simp only [handleAddInvoice, htype]
    by_cases hcommit :
        (0.001 : ℚ) < (allocate op.quantityGrams s.inventory op.date op.ratePerGram).2.2
    · rw [if_pos hcommit]
      refine ⟨⟨hdesc, hasc, htoday, hmil, hrep⟩, ?_, ?_⟩
      · exact fun i hi => le_of_lt (hinvlt i hi)
      · exact fun b hb => le_of_lt (hlotlt b hb)
    · rw [if_neg hcommit]
      have hmapdate := allocate_map_date s.inventory op.quantityGrams op.date op.ratePerGram
      refine ⟨⟨?_, ?_, ?_, ?_, ?_⟩, ?_, ?_⟩
      · rw [List.pairwise_cons]
        exact ⟨hinvlt, hdesc⟩
      · rw [← List.pairwise_map (f := fun b : InventoryBatch => b.date)] at hasc ⊢
        rw [hmapdate]
        exact hasc
      · intro i hi
        rcases List.mem_cons.mp hi with rfl | hmem
        · exact hd
        · exact htoday i hmem
      · intro b hb
        exact allocate_mil s.inventory hmil hqmil op.date op.ratePerGram b hb
      · rw [List.reverse_cons, List.foldl_append, hrep]
        rw [List.foldl_cons, List.foldl_nil]
        rw [replayStep]
        show consumeScratch op.quantityGrams (scratchOf s.inventory) = _
        rw [← scratchOf_allocate s.inventory hmil hqmil op.date op.ratePerGram]
      · intro i hi
        rcases List.mem_cons.mp hi with rfl | hmem
        · exact le_refl _
        · exact le_of_lt (hinvlt i hmem)
      · intro b hb
        have hbdate : b.date ∈ s.inventory.map (·.date) := by
          rw [← hmapdate]
          exact List.mem_map.mpr ⟨b, hb, rfl⟩
        obtain ⟨b0, hb0, hdate⟩ := List.mem_map.mp hbdate
        rw [← hdate]
        exact le_of_lt (hlotlt b0 hb0)

lemma replay_fold (today : Nat) :
    ∀ (ops : List Invoice) (s : AppState),
      List.Pairwise (fun a b : Invoice => a.date < b.date) ops →
      (∀ op ∈ ops, Mil op.quantityGrams ∧ 0 < op.quantityGrams) →
      (∀ op ∈ ops, op.date ≤ today) →
      ReplayInv today s →
      (∀ i ∈ s.invoices, ∀ op ∈ ops, i.date < op.date) →
      (∀ b ∈ s.inventory, ∀ op ∈ ops, b.date < op.date) →
      ReplayInv today (ops.foldl (fun s op => (handleAddInvoice s op).1) s)
  | [], s, _, _, _, hs, _, _ => hs
  | op :: rest, s, hdates, hq, htoday, hs, hinvlt, hlotlt => by
    rw [List.foldl_cons]
    have hop := hq op (by simp)
    have hstep := replay_step_inv today s op hs hop.1 hop.2
      (htoday op (by simp))
      (fun i hi => hinvlt i hi op (by simp))
      (fun b hb => hlotlt b hb op (by simp))
    have hoprest : ∀ op' ∈ rest, op.date < op'.date :=
      fun op' hop' => List.rel_of_pairwise_cons hdates hop'
    exact replay_fold today rest _ (List.Pairwise.of_cons hdates)
      (fun x hx => hq x (by simp [hx]))
      (fun x hx => htoday x (by simp [hx]))
      hstep.1
      (fun i hi op' hop' => lt_of_le_of_lt (hstep.2.1 i hi) (hoprest op' hop'))
      (fun b hb op' hop' => lt_of_le_of_lt (hstep.2.2 b hb) (hoprest op' hop'))

lemma fifoValue_scratchOf (inventory : List InventoryBatch)
    (hnn : ∀ b ∈ inventory, 0 ≤ b.remainingQuantity) :
    (scratchOf inventory).foldl (fun sum b => sum + b.quantity * b.cost) 0 =
      fifoValue inventory := by
  rw [foldl_add_map (fun b : ScratchBatch => b.quantity * b.cost), zero_add,
    fifoValue_eq]
  induction inventory with
  | nil => rfl
  | cons b rest ih =>
    have hb := hnn b (by simp)
    have hrest := fun x hx => hnn x (List.mem_cons_of_mem b hx)
    by_cases hpos : 0 < b.remainingQuantity
    · rw [scratchOf_cons_pos hpos]
      simp only [List.map_cons, List.sum_cons]
      rw [ih hrest]
    · have hb0 : b.remainingQuantity = 0 := le_antisymm (not_lt.mp hpos) hb
      rw [scratchOf_cons_zero hpos]
      simp only [List.map_cons, List.sum_cons, hb0, zero_mul, zero_add]
      exact ih hrest

/-- The two same-day transactions of the C3 counterexample. -/
def c3Purchase : Invoice :=
  { id := "p", date := 5, type := TransactionType.PURCHASE, partyName := "S",
    quantityGrams := 50, ratePerGram := 6000, gstRate := 0, gstAmount := 0,
    taxableAmount := 300000, totalAmount := 300000 }

def c3Sale : Invoice :=
  { id := "s", date := 5, type := TransactionType.SALE, partyName := "C",
    quantityGrams := 50, ratePerGram := 6500, gstRate := 0, gstAmount := 0,
    taxableAmount := 325000, totalAmount := 325000 }

/-- **C3, counterexample.**  A purchase of 50 g and a sale of 50 g
recorded on the same date (day 5), with no future-dated transactions
(both dates equal the cutoff).  The live ledger is fully drained
(`fifoValue = 0`), but the replay at `today = 5` yields `300000`: the
invoice list is stored newest-first and the replay's stable sort keeps
the sale *before* the same-dated purchase, so the replayed sale hits an
empty scratch list and the purchase survives in full. -/
theorem claim_c3_counterexample :
    calculateInventoryValueOnDate (applyOps [c3Purchase, c3Sale]).invoices 5 = 300000 ∧
    fifoValue (applyOps [c3Purchase, c3Sale]).inventory = 0 ∧
    (applyOps [c3Purchase, c3Sale]).invoices.map (·.date) = [5, 5] := by
  refine ⟨?_, ?_, ?_⟩ <;>
    norm_num [applyOps, handleAddInvoice, allocate, mkBatch, sortOn,
      List.insertionSort, List.orderedInsert, min_def, fifoValue,
      calculateInventoryValueOnDate, replayBatches, relevantInvoices,
      replayStep, consumeScratch, c3Purchase, c3Sale]

/-- **C3, amended.**  For every ledger state reached by recording
operations in *strictly increasing date order*, with every quantity a
positive whole number of milligrams and no transaction dated after
`today`, the Valuation Replayer at cutoff `today` equals the live
inventory value `sum(remainingQuantity · costPerGram)` exactly. -/
theorem claim_c3_amended (ops : List Invoice) (today : Nat)
    (hdates : List.Pairwise (fun a b : Invoice => a.date < b.date) ops)
    (hq : ∀ op ∈ ops, Mil op.quantityGrams ∧ 0 < op.quantityGrams)
    (htoday : ∀ op ∈ ops, op.date ≤ today) :
    calculateInventoryValueOnDate (applyOps ops).invoices today =
      fifoValue (applyOps ops).inventory := by
  have hinit : ReplayInv today ⟨[], []⟩ :=
    ⟨List.Pairwise.nil, List.Pairwise.nil, by simp, by simp, rfl⟩
  have hinv := replay_fold today ops ⟨[], []⟩ hdates hq htoday hinit
    (by simp) (by simp)
  obtain ⟨hdesc, hasc, hle, hmil, hrep⟩ := hinv
  unfold calculateInventoryValueOnDate replayBatches relevantInvoices applyOps
  have hfilter : (ops.foldl (fun s op => (handleAddInvoice s op).1)
        (⟨[], []⟩ : AppState)).invoices.filter (fun i => decide (i.date ≤ today)) =
      (ops.foldl (fun s op => (handleAddInvoice s op).1) (⟨[], []⟩ : AppState)).invoices :=
    List.filter_eq_self.mpr (fun i hi => by simpa using hle i hi)
  rw [hfilter, sortOn_eq_reverse (fun i : Invoice => i.date) _ hdesc, hrep]
  exact fifoValue_scratchOf _ (fun b hb => (hmil b hb).nonneg)

/-- Witness for C3 (amended): purchase 50 g on day 1, sell 20 g on day
2, value the book on day 10 — replay and live value agree. -/
theorem claim_c3_witness :
    calculateInventoryValueOnDate
        (applyOps [{ id := "p", date := 1, type := TransactionType.PURCHASE,
                     partyName := "S", quantityGrams := 50, ratePerGram := 6000,
                     gstRate := 0, gstAmount := 0, taxableAmount := 300000,
                     totalAmount := 300000 },
                   { id := "s", date := 2, type := TransactionType.SALE,
                     partyName := "C", quantityGrams := 20, ratePerGram := 6500,
                     gstRate := 0, gstAmount := 0, taxableAmount := 130000,
                     totalAmount := 130000 }]).invoices 10 =
      fifoValue
        (applyOps [{ id := "p", date := 1, type := TransactionType.PURCHASE,
                     partyName := "S", quantityGrams := 50, ratePerGram := 6000,
                     gstRate := 0, gstAmount := 0, taxableAmount := 300000,
                     totalAmount := 300000 },
                   { id := "s", date := 2, type := TransactionType.SALE,
                     partyName := "C", quantityGrams := 20, ratePerGram := 6500,
                     gstRate := 0, gstAmount := 0, taxableAmount := 130000,
                     totalAmount := 130000 }]).inventory :=
  claim_c3_amended _ 10
    (by norm_num [List.pairwise_cons])
    (by
      intro op hop
      simp only [List.mem_cons, List.mem_singleton, List.not_mem_nil, or_false] at hop
      rcases hop with rfl | rfl
      · exact ⟨⟨50000, by norm_num⟩, by norm_num⟩
      · exact ⟨⟨20000, by norm_num⟩, by norm_num⟩)
    (by
      intro op hop
      simp only [List.mem_cons, List.mem_singleton, List.not_mem_nil, or_false] at hop
      rcases hop with rfl | rfl <;> norm_num)

end Bullion
